import Mathlib

/-!
Verification of the MCP Studio tool-orchestration core.

This file gives a shallow embedding, in Lean, of the tool-orchestration
layer of the application: the session registry and call dispatcher
(`src/main/services/MCPService.ts`), the response normalizer
(`src/main/services/ToolProcessor.ts`), the native-tool-calling provider
adapters (`src/main/providers/OpenAIProvider.ts`, the Anthropic adapter)
and the orchestrator's catalog builder (`AIService.getAvailableTools`).

Modelling conventions:
- JavaScript strings are modelled as `List Char`.
- The external world (MCP transports, the ping probe, vendor completion
  endpoints, the JS engine's JSON `SyntaxError` messages) is an explicit
  environment record of pure functions; stateful services thread an
  explicit state value.
- Async/await sequencing is modelled as ordinary sequential state
  passing; each model also returns a trace of the externally visible
  events (tool invocations, completion requests) in the order the code
  performs them.
- `String.prototype.replace(string, string)` is modelled as literal
  first-occurrence replacement (`replaceFirst`); dollar-escape processing
  in the replacement argument is out of scope.
-/

/-- Convert a string literal to the `List Char` representation used by the
models. -/
def cs (s : String) : List Char := s.data

/-- Boolean prefix test on character lists (structural, so that it reduces
by `decide`). -/
def hasPref : List Char → List Char → Bool
  | [], _ => true
  | _ :: _, [] => false
  | p :: ps, c :: csl => p == c && hasPref ps csl

/-- Index of the first occurrence of `pat` in `s`, scanning left to right
(the semantics of `String.prototype.indexOf` / of a regex engine trying
successive start positions). -/
def firstIdx (pat : List Char) : List Char → Option Nat
  | [] => if hasPref pat [] then some 0 else none
  | c :: csl =>
    if hasPref pat (c :: csl) then some 0
    else (firstIdx pat csl).map (· + 1)

/-- `pat` occurs in `s` starting at index `i`. -/
def occursAt (pat s : List Char) (i : Nat) : Bool :=
  hasPref pat (s.drop i)

/-- `pat` occurs somewhere in `s`. -/
def containsSub (pat s : List Char) : Bool :=
  (firstIdx pat s).isSome

/-- Model of JavaScript `s.replace(pat, rep)` with a string `pat`:
replace the first occurrence only; if there is none, return `s`
unchanged. -/
def replaceFirst (pat rep s : List Char) : List Char :=
  match firstIdx pat s with
  | some i => s.take i ++ rep ++ s.drop (i + pat.length)
  | none => s

/-- Model of a JavaScript alternation replace `s.replace(/a|b/g, "")`:
one left-to-right pass removing every occurrence of either literal;
removed fragments are not rescanned. -/
def removeTagsF (t1 t2 : List Char) : Nat → List Char → List Char
  | 0, s => s
  | _ + 1, [] => []
  | f + 1, c :: csl =>
    if hasPref t1 (c :: csl) then removeTagsF t1 t2 f (csl.drop (t1.length - 1))
    else if hasPref t2 (c :: csl) then removeTagsF t1 t2 f (csl.drop (t2.length - 1))
    else c :: removeTagsF t1 t2 f csl

/-- Entry point: the fuel `s.length` always suffices because every step
consumes at least one character. -/
def removeTags (t1 t2 s : List Char) : List Char :=
  removeTagsF t1 t2 s.length s

/-- Whitespace recognized by JavaScript `String.prototype.trim` (the
ASCII part, which is all that reaches the normalizer). -/
def isWS (c : Char) : Bool :=
  c == ' ' || c == '\t' || c == '\n' || c == '\r'

/-- Model of JavaScript `s.trim()`. -/
def jsTrim (s : List Char) : List Char :=
  ((s.dropWhile isWS).reverse.dropWhile isWS).reverse

/-- A character of the JavaScript `\w` class. -/
def isWordCh (c : Char) : Bool :=
  let n := c.toNat
  decide ((97 ≤ n ∧ n ≤ 122) ∨ (65 ≤ n ∧ n ≤ 90) ∨ (48 ≤ n ∧ n ≤ 57) ∨ n = 95)

/-- Split off everything up to (excluding) the first occurrence of `c`,
together with the remainder after `c`; `none` if `c` does not occur. -/
def splitAtCh (c : Char) : List Char → Option (List Char × List Char)
  | [] => none
  | d :: ds =>
    if d == c then some ([], ds)
    else (splitAtCh c ds).map (fun p => (d :: p.1, p.2))

/-- Index of the last occurrence of character `c` in `s`. -/
def lastIdxCh (c : Char) (s : List Char) : Option Nat :=
  (firstIdx [c] s.reverse).map (fun i => s.length - 1 - i)

/-! ## A model of JSON values and of `JSON.parse` / `JSON.stringify`

JavaScript numbers are kept as their source lexeme (`jn`): none of the
verified properties depends on numeric value canonicalization. -/

inductive JVal where
  | jnull
  | jb (b : Bool)
  | jn (lex : List Char)
  | js (s : List Char)
  | ja (xs : List JVal)
  | jo (fs : List (List Char × JVal))

instance : Inhabited JVal := ⟨JVal.jnull⟩

/-- JSON whitespace accepted by `JSON.parse`. -/
def isJWS (c : Char) : Bool :=
  c == ' ' || c == '\t' || c == '\n' || c == '\r'

def skipWS (s : List Char) : List Char := s.dropWhile isJWS

def hexVal (c : Char) : Option Nat :=
  let n := c.toNat
  if 48 ≤ n ∧ n ≤ 57 then some (n - 48)
  else if 97 ≤ n ∧ n ≤ 102 then some (n - 87)
  else if 65 ≤ n ∧ n ≤ 70 then some (n - 55)
  else none

/-- Decode a `\uXXXX` escape. Lone UTF-16 surrogates are replaced by the
replacement character (the only divergence from JS strings, which are
UTF-16 code-unit sequences; no verified property depends on it). -/
def decodeHex4 : List Char → Option (Char × List Char)
  | a :: b :: c :: d :: rest => do
    let ha ← hexVal a
    let hb ← hexVal b
    let hc ← hexVal c
    let hd ← hexVal d
    pure (Char.ofNat (((ha * 16 + hb) * 16 + hc) * 16 + hd), rest)
  | _ => none

/-- Parse a JSON string body (the part after the opening quote); returns
the decoded content and the remainder after the closing quote. -/
def pstrBody : Nat → List Char → Option (List Char × List Char)
  | 0, _ => none
  | _ + 1, [] => none
  | f + 1, c :: rest =>
    if c == '"' then some ([], rest)
    else if c == '\\' then
      match rest with
      | [] => none
      | e :: rest2 =>
        let cont (ch : Char) (r : List Char) : Option (List Char × List Char) :=
          (pstrBody f r).map (fun p => (ch :: p.1, p.2))
        if e == '"' then cont '"' rest2
        else if e == '\\' then cont '\\' rest2
        else if e == '/' then cont '/' rest2
        else if e == 'b' then cont '\x08' rest2
        else if e == 'f' then cont '\x0c' rest2
        else if e == 'n' then cont '\n' rest2
        else if e == 'r' then cont '\r' rest2
        else if e == 't' then cont '\t' rest2
        else if e == 'u' then
          match decodeHex4 rest2 with
          | some (ch, rest3) => cont ch rest3
          | none => none
        else none
    else if c.toNat < 0x20 then none
    else (pstrBody f rest).map (fun p => (c :: p.1, p.2))

def isDigitCh (c : Char) : Bool :=
  decide (48 ≤ c.toNat ∧ c.toNat ≤ 57)

/-- Parse the optional fraction and exponent parts of a JSON number;
`none` when a fraction dot is present without digits (rejected by
`JSON.parse`). -/
def pfracExp (r : List Char) : Option (List Char × List Char) :=
  let step1 : Option (List Char × List Char) :=
    match r with
    | '.' :: r1 =>
      let ds := r1.takeWhile isDigitCh
      if ds.isEmpty then none
      else some ('.' :: ds, r1.drop ds.length)
    | _ => some ([], r)
  match step1 with
  | none => none
  | some (frac, r2) =>
    let (ex, r3) :=
      match r2 with
      | e :: r1 =>
        if e == 'e' || e == 'E' then
          let (es, r2a) :=
            match r1 with
            | '+' :: ra => (['+'], ra)
            | '-' :: ra => (['-'], ra)
            | _ => (([] : List Char), r1)
          let ds := r2a.takeWhile isDigitCh
          if ds.isEmpty then (([] : List Char), r2)
          else (e :: (es ++ ds), r2a.drop ds.length)
        else ([], r2)
      | _ => ([], r2)
    some (frac ++ ex, r3)

/-- Parse a JSON number lexeme (grammar of RFC 8259, as enforced by
`JSON.parse`); the lexeme is kept verbatim. -/
def pnum (s : List Char) : Option (List Char × List Char) :=
  let (sign, s1) := match s with
    | '-' :: r => ((['-'] : List Char), r)
    | _ => (([] : List Char), s)
  match s1 with
  | [] => none
  | c :: r =>
    if c == '0' then
      (pfracExp r).map (fun p => (sign ++ ['0'] ++ p.1, p.2))
    else if isDigitCh c then
      let ds := c :: r.takeWhile isDigitCh
      let r1 := r.drop (r.takeWhile isDigitCh).length
      (pfracExp r1).map (fun p => (sign ++ ds ++ p.1, p.2))
    else none

/-- Parser modes: a single fueled function replaces the mutual recursion
between value, array-items and object-fields parsing so that the
definition is structural (in the fuel) and kernel-reducible. -/
inductive PM where
  | v
  | items (acc : List JVal)
  | fields (acc : List (List Char × JVal))

def pgo : Nat → PM → List Char → Option (JVal × List Char)
  | 0, _, _ => none
  | f + 1, PM.v, s0 =>
    let s := skipWS s0
    match s with
    | [] => none
    | c :: r =>
      if c == '"' then (pstrBody (r.length + 1) r).map (fun p => (JVal.js p.1, p.2))
      else if c == 't' then (if hasPref (cs "rue") r then some (JVal.jb true, r.drop 3) else none)
      else if c == 'f' then (if hasPref (cs "alse") r then some (JVal.jb false, r.drop 4) else none)
      else if c == 'n' then (if hasPref (cs "ull") r then some (JVal.jnull, r.drop 3) else none)
      else if c == '[' then
        match skipWS r with
        | ']' :: r2 => some (JVal.ja [], r2)
        | r1 => pgo f (PM.items []) r1
      else if c == '\x7b' then
        match skipWS r with
        | '\x7d' :: r2 => some (JVal.jo [], r2)
        | r1 => pgo f (PM.fields []) r1
      else (pnum s).map (fun p => (JVal.jn p.1, p.2))
  | f + 1, PM.items acc, s =>
    match pgo f PM.v s with
    | none => none
    | some (v, r) =>
      match skipWS r with
      | ',' :: r2 => pgo f (PM.items (acc ++ [v])) r2
      | ']' :: r2 => some (JVal.ja (acc ++ [v]), r2)
      | _ => none
  | f + 1, PM.fields acc, s =>
    match skipWS s with
    | '"' :: r =>
      match pstrBody (r.length + 1) r with
      | none => none
      | some (k, r1) =>
        match skipWS r1 with
        | ':' :: r2 =>
          match pgo f PM.v r2 with
          | none => none
          | some (v, r3) =>
            match skipWS r3 with
            | ',' :: r4 => pgo f (PM.fields (acc ++ [(k, v)])) r4
            | '\x7d' :: r4 => some (JVal.jo (acc ++ [(k, v)]), r4)
            | _ => none
        | _ => none
    | _ => none

/-- Model of `JSON.parse`: a whole-string parse; trailing non-whitespace
is a `SyntaxError` (`none`). The fuel `2*|s|+4` always suffices: at most
two recursion steps occur per consumed input character. -/
def jparse (s : List Char) : Option JVal :=
  match pgo (2 * s.length + 4) PM.v s with
  | some (v, rest) => if (skipWS rest).isEmpty then some v else none
  | none => none

/-- Property lookup on a parsed object: with duplicate keys,
`JSON.parse` keeps the last occurrence. -/
def joGet (fs : List (List Char × JVal)) (k : List Char) : Option JVal :=
  ((fs.filter (fun p => p.1 == k)).getLast?).map (fun p => p.2)

/-- JavaScript property access `v[k]` on a parsed JSON value: `undefined`
(`none`) for every non-object; the `null` case (a `TypeError` under
destructuring) is handled at the call site. -/
def jsGet : JVal → List Char → Option JVal
  | JVal.jo fs, k => joGet fs k
  | _, _ => none

mutual

/-- Node count of a JSON value; used as fuel for the fueled traversals
below (it bounds the nesting depth). -/
def jsize : JVal → Nat
  | JVal.jnull => 1
  | JVal.jb _ => 1
  | JVal.jn _ => 1
  | JVal.js _ => 1
  | JVal.ja xs => 1 + jsizeArr xs
  | JVal.jo fs => 1 + jsizeObj fs

def jsizeArr : List JVal → Nat
  | [] => 0
  | x :: xs => jsize x + jsizeArr xs

def jsizeObj : List (List Char × JVal) → Nat
  | [] => 0
  | (_, v) :: fs => jsize v + jsizeObj fs

end

/-- String conversion of a JS value, as performed by a template literal
interpolation such as `Server '${serverId}' not found`. -/
def jsToStrF : Nat → JVal → List Char
  | 0, _ => []
  | _ + 1, JVal.jnull => cs "null"
  | _ + 1, JVal.jb true => cs "true"
  | _ + 1, JVal.jb false => cs "false"
  | _ + 1, JVal.jn lex => lex
  | _ + 1, JVal.js s => s
  | f + 1, JVal.ja xs =>
    List.intercalate (cs ",")
      (xs.map (fun x => match x with
        | JVal.jnull => []
        | _ => jsToStrF f x))
  | _ + 1, JVal.jo _ => cs "[object Object]"

def jsToStr : Option JVal → List Char
  | none => cs "undefined"
  | some v => jsToStrF (jsize v) v

def hexDigit (n : Nat) : Char :=
  if n < 10 then Char.ofNat ('0'.toNat + n) else Char.ofNat ('a'.toNat + n - 10)

/-- One character of `JSON.stringify` string escaping. -/
def sEsc1 (c : Char) : List Char :=
  if c == '"' then cs "\\\""
  else if c == '\\' then cs "\\\\"
  else if c == '\x08' then cs "\\b"
  else if c == '\x0c' then cs "\\f"
  else if c == '\n' then cs "\\n"
  else if c == '\r' then cs "\\r"
  else if c == '\t' then cs "\\t"
  else if c.toNat < 0x20 then cs "\\u00" ++ [hexDigit (c.toNat / 16), hexDigit (c.toNat % 16)]
  else [c]

def sEscStr (s : List Char) : List Char :=
  '"' :: (s.map sEsc1).flatten ++ ['"']

def spaces (n : Nat) : List Char := List.replicate n ' '

/-- Model of `JSON.stringify(v, null, 2)` (two-space pretty printing),
fueled by `sizeOf v` (which bounds the nesting depth). -/
def s2F : Nat → JVal → Nat → List Char
  | 0, _, _ => []
  | _ + 1, JVal.jnull, _ => cs "null"
  | _ + 1, JVal.jb true, _ => cs "true"
  | _ + 1, JVal.jb false, _ => cs "false"
  | _ + 1, JVal.jn lex, _ => lex
  | _ + 1, JVal.js s, _ => sEscStr s
  | f + 1, JVal.ja xs, ind =>
    match xs with
    | [] => cs "[]"
    | _ =>
      cs "[\n" ++
        List.intercalate (cs ",\n")
          (xs.map (fun x => spaces (ind + 2) ++ s2F f x (ind + 2))) ++
        cs "\n" ++ spaces ind ++ cs "]"
  | f + 1, JVal.jo fs, ind =>
    match fs with
    | [] => cs "\x7b\x7d"
    | _ =>
      cs "\x7b\n" ++
        List.intercalate (cs ",\n")
          (fs.map (fun p => spaces (ind + 2) ++ sEscStr p.1 ++ cs ": " ++ s2F f p.2 (ind + 2))) ++
        cs "\n" ++ spaces ind ++ cs "\x7d"

def stringify2 (v : JVal) : List Char := s2F (jsize v) v 0

/-! ## Model of `MCPService` (session registry and call dispatcher)

Translated from `src/main/services/MCPService.ts`. The MCP SDK `Client`,
the transports, the liveness `ping` and the remote server's behavior are
the environment (`MCPEnv`); the service's own mutable state — the
`clients` map keyed by `getServerKey` and the `activeToolCalls` map of
`AbortController`s — is threaded explicitly (`MCPState`). -/

structure MCPServer where
  id : List Char
  name : List Char
  stype : List Char
  baseUrl : Option (List Char)
  command : Option (List Char)
  args : Option (List (List Char))
  env : Option (List (List Char × List Char))
  headers : Option (List (List Char × List Char))
  isActive : Bool
  timeout : Option Nat
deriving DecidableEq, Repr

/-- The content of `getServerKey`'s `JSON.stringify` fingerprint: two
configs produce the same key string iff these five components coincide
(property names are fixed, `undefined` members are omitted uniformly, so
stringify equality is componentwise equality). -/
structure ServerKey where
  baseUrl : Option (List Char)
  command : Option (List Char)
  args : List (List Char)
  env : Option (List (List Char × List Char))
  id : List Char
deriving DecidableEq, Repr

/-- `MCPService.getServerKey`: stringifies `baseUrl`, `command`, the
array-normalized `args`, `env` and `id` — and nothing else. -/
def getServerKey (s : MCPServer) : ServerKey :=
  { baseUrl := s.baseUrl
    command := s.command
    args := s.args.getD []
    env := s.env
    id := s.id }

/-- A connected SDK `Client` object, identified by allocation number (so
that "returns the same live client object" is expressible). -/
structure Client where
  cid : Nat
deriving DecidableEq, Repr

structure MCPState where
  clients : List (ServerKey × Client)
  activeToolCalls : List (List Char × Nat)
  nextId : Nat
deriving DecidableEq, Repr

def emptyMCPState : MCPState := ⟨[], [], 0⟩

/-- JS-`Map.get` semantics on an association list. -/
def mapGet {κ ν : Type} [DecidableEq κ] (m : List (κ × ν)) (k : κ) : Option ν :=
  match m with
  | [] => none
  | (a, b) :: rest => if k = a then some b else mapGet rest k

/-- JS-`Map.set` semantics on an association list: overwrite in place,
else append. -/
def mapSet {κ ν : Type} [DecidableEq κ] (m : List (κ × ν)) (k : κ) (v : ν) : List (κ × ν) :=
  if (mapGet m k).isSome then
    m.map (fun p => if p.1 = k then (k, v) else p)
  else m ++ [(k, v)]

/-- JS-`Map.delete` semantics. -/
def mapDel {κ ν : Type} [DecidableEq κ] (m : List (κ × ν)) (k : κ) : List (κ × ν) :=
  m.filter (fun p => ¬ p.1 = k)

/-- A tool as reported on the wire by `client.listTools()`. -/
structure RawTool where
  name : List Char
  description : Option (List Char)
  inputSchema : Option JVal

/-- The mapped descriptor produced by `MCPService.listTools`. -/
structure MCPTool where
  id : List Char
  name : List Char
  description : Option (List Char)
  inputSchema : Option JVal
  serverId : List Char
  serverName : List Char

/-- Environment of the service: liveness probe, connection attempts and
the remote servers' responses. -/
structure MCPEnv where
  pingOk : Nat → Bool
  connectOk : MCPServer → Bool
  connectErr : MCPServer → List Char
  listToolsResp : Nat → MCPServer → Except (List Char) (List RawTool)
  callToolResp : Nat → MCPServer → Option JVal → Option JVal → Except (List Char) JVal

/-- JS truthiness of an optional string (`""` is falsy). -/
def truthyStr : Option (List Char) → Bool
  | none => false
  | some s => ¬ s.isEmpty

/-- The "create new client + transport and connect" tail of `initClient`
(everything after the cache probe). -/
def connectNew (env : MCPEnv) (server : MCPServer) (st : MCPState) :
    Except (List Char) Client × MCPState :=
  let c : Client := ⟨st.nextId⟩
  let st1 := { st with nextId := st.nextId + 1 }
  if truthyStr server.baseUrl then
    if server.stype == cs "streamableHttp" || server.stype == cs "sse" then
      if env.connectOk server then
        (Except.ok c, { st1 with clients := mapSet st1.clients (getServerKey server) c })
      else (Except.error (env.connectErr server), st1)
    else (Except.error (cs "Invalid server type for URL-based connection"), st1)
  else if truthyStr server.command then
    if env.connectOk server then
      (Except.ok c, { st1 with clients := mapSet st1.clients (getServerKey server) c })
    else (Except.error (env.connectErr server), st1)
  else (Except.error (cs "Either baseUrl or command must be provided"), st1)

/-- `MCPService.initClient`: return a cached client for the config's key
when the ping succeeds; on ping failure drop the stale entry and
reconnect; on a cache miss connect and store under the key. -/
def initClient (env : MCPEnv) (server : MCPServer) (st : MCPState) :
    Except (List Char) Client × MCPState :=
  match mapGet st.clients (getServerKey server) with
  | some c =>
    if env.pingOk c.cid then (Except.ok c, st)
    else connectNew env server { st with clients := mapDel st.clients (getServerKey server) }
  | none => connectNew env server st

/-- `MCPService.listTools`: map the wire tools to descriptors; any
failure (connection or request) is caught and yields `[]`. The model is
a total function — the catch-all `return []` is what makes "never
throws" hold. -/
def svcListTools (env : MCPEnv) (server : MCPServer) (st : MCPState) :
    List MCPTool × MCPState :=
  match initClient env server st with
  | (Except.error _, st') => ([], st')
  | (Except.ok c, st') =>
    match env.listToolsResp c.cid server with
    | Except.error _ => ([], st')
    | Except.ok raws =>
      (raws.map (fun t =>
        { id := server.name ++ cs "." ++ t.name
          name := t.name
          description := t.description
          inputSchema := t.inputSchema
          serverId := server.id
          serverName := server.name }), st')

/-- Events observable at the `activeToolCalls` map, in program order. -/
inductive SvcEv where
  | registered (callId : List Char)
  | invoked (callId : List Char) (serverId : List Char)
  | removed (callId : List Char)
deriving DecidableEq, Repr

def natChars (n : Nat) : List Char := (Nat.repr n).data

/-- JS falsiness of the optional caller-supplied call id (`undefined`
or the empty string). -/
def optFalsy : Option (List Char) → Bool
  | none => true
  | some s => s.isEmpty

/-- `callId || uuidv4()`: a falsy caller id is replaced by a freshly
generated one. -/
def resolveCallId (callId : Option (List Char)) (fresh : List Char) : List Char :=
  if optFalsy callId then fresh else callId.getD []

/-- `MCPService.callTool`: allocate the call id if absent, register an
`AbortController` under it, run `initClient` + the transport call inside
`try`, and delete the registration in `finally` — on success, thrown
error, and cancellation alike (a cancelled transport call rejects, which
is the `Except.error` case of the environment's response). -/
def svcCallTool (env : MCPEnv) (server : MCPServer) (nameArg args : Option JVal)
    (callId : Option (List Char)) (st : MCPState) :
    Except (List Char) JVal × MCPState × List SvcEv :=
  let toolCallId := resolveCallId callId (cs "uuid-" ++ natChars st.nextId)
  let st0 := if optFalsy callId then { st with nextId := st.nextId + 1 } else st
  let abortId := st0.nextId
  let st1 := { st0 with
    nextId := st0.nextId + 1
    activeToolCalls := mapSet st0.activeToolCalls toolCallId abortId }
  match initClient env server st1 with
  | (Except.error e, s2) =>
    (Except.error e,
      { s2 with activeToolCalls := mapDel s2.activeToolCalls toolCallId },
      [SvcEv.registered toolCallId, SvcEv.removed toolCallId])
  | (Except.ok c, s2) =>
    (env.callToolResp c.cid server nameArg args,
      { s2 with activeToolCalls := mapDel s2.activeToolCalls toolCallId },
      [SvcEv.registered toolCallId, SvcEv.invoked toolCallId server.id,
        SvcEv.removed toolCallId])

/-- `MCPService.abortTool`: abort and deregister if a controller is
registered under the id, reporting `true`; otherwise report `false`. -/
def abortTool (callId : List Char) (st : MCPState) : Bool × MCPState :=
  match mapGet st.activeToolCalls callId with
  | some _ => (true, { st with activeToolCalls := mapDel st.activeToolCalls callId })
  | none => (false, st)

/-! ## Model of `ToolProcessor` (response normalizer)

Translated from `src/main/services/ToolProcessor.ts`. The normalizer
uses `mcpService` only through `listTools` (which never throws) and
`callTool` (whose result/rejection is decided by the remote server), so
the dispatcher appears here as part of the environment `PEnv`; its
internal state is irrelevant to the normalizer's output. -/

def openCallTag : List Char := cs "<tool_call>"
def closeCallTag : List Char := cs "</tool_call>"
def openCodeTag : List Char := cs "<tool_code>"
def closeCodeTag : List Char := cs "</tool_code>"
def resOpenTag : List Char := cs "<tool_result>"
def resCloseTag : List Char := cs "</tool_result>"
def errOpenTag : List Char := cs "<tool_error>"
def errCloseTag : List Char := cs "</tool_error>"

/-- All matches of `/<open>(.*?)<\/close>/gs` (as returned by
`String.prototype.match` with the `g` flag): repeatedly take the
leftmost occurrence of the open tag, close it at the earliest following
close tag, and continue after the match. Fueled for kernel
reducibility; `|s|` steps always suffice. -/
def matchSpansF (openT closeT : List Char) : Nat → List Char → List (List Char)
  | 0, _ => []
  | f + 1, s =>
    match firstIdx openT s with
    | none => []
    | some i =>
      let afterOpen := s.drop (i + openT.length)
      match firstIdx closeT afterOpen with
      | none => []
      | some k =>
        (openT ++ afterOpen.take k ++ closeT) ::
          matchSpansF openT closeT f (afterOpen.drop (k + closeT.length))

def matchSpans (openT closeT s : List Char) : List (List Char) :=
  matchSpansF openT closeT s.length s

/-- Companion of `matchSpansF` that also keeps the text between the
matches: returns the (gap, span) segments and the trailing gap. Used to
state and prove the round-trip properties. -/
def splitSpansF (openT closeT : List Char) : Nat → List Char →
    List (List Char × List Char) × List Char
  | 0, s => ([], s)
  | f + 1, s =>
    match firstIdx openT s with
    | none => ([], s)
    | some i =>
      let afterOpen := s.drop (i + openT.length)
      match firstIdx closeT afterOpen with
      | none => ([], s)
      | some k =>
        let p := splitSpansF openT closeT f (afterOpen.drop (k + closeT.length))
        ((s.take i, openT ++ afterOpen.take k ++ closeT) :: p.1, p.2)

def splitSpans (openT closeT s : List Char) : List (List Char × List Char) × List Char :=
  splitSpansF openT closeT s.length s

/-- Rebuild a string from (gap, span) segments and a trailing gap. -/
def joinSegs (segs : List (List Char × List Char)) (fin : List Char) : List Char :=
  match segs with
  | [] => fin
  | (g, sp) :: rest => g ++ sp ++ joinSegs rest fin

/-- A `ToolCall` record as accumulated by the normalizer (the TS shape
`{id, serverId, serverName, name, args, result}`; `name`/`args` are
whatever the parsed JSON held, possibly absent). -/
structure ToolCall where
  tid : List Char
  serverId : List Char
  serverName : List Char
  name : Option JVal
  args : Option JVal
  result : Option JVal
  error : Option (List Char)

/-- Externally visible tool-dispatch events of the normalizer, in
program order. -/
inductive PEv where
  | invoke (serverId : List Char) (name : Option JVal) (args : Option JVal)

/-- Environment of the normalizer: the dispatcher (`mcpService`), plus
the JS engine's `SyntaxError`/`TypeError` message texts, which the code
interpolates into `<tool_error>` markers. -/
structure PEnv where
  listTools : MCPServer → List RawTool
  callTool : MCPServer → Option JVal → Option JVal → Except (List Char) JVal
  jsonErrMsg : List Char → List Char
  destructureNullMsg : List Char

/-- The fallback `toolData.match(/\{.*\}/s)`: the greedy substring from
the first opening brace to the last closing brace (not a balanced
match). -/
def greedyBrace (s : List Char) : Option (List Char) :=
  match firstIdx ['\x7b'] s, lastIdxCh '\x7d' s with
  | some i, some j => if i < j then some ((s.take (j + 1)).drop i) else none
  | _, _ => none

/-- Shared tail of `processJsonToolCall` once a JSON value has been
obtained: destructure `{serverId, name, args}`, resolve the server by
`id` (strict string equality), dispatch, and build the record and the
`<tool_result>` replacement. -/
def handleParsed (env : PEnv) (v : JVal) (servers : List MCPServer) (n : Nat) :
    Except (List Char) (ToolCall × List Char) × List PEv :=
  match v with
  | JVal.jnull => (Except.error env.destructureNullMsg, [])
  | _ =>
    let serverId := jsGet v (cs "serverId")
    let nameV := jsGet v (cs "name")
    let argsV := jsGet v (cs "args")
    match servers.find? (fun s =>
      match serverId with
      | some (JVal.js sid) => sid == s.id
      | _ => false) with
    | none =>
      (Except.error (cs "Server '" ++ jsToStr serverId ++ cs "' not found"), [])
    | some server =>
      match env.callTool server nameV argsV with
      | Except.error e => (Except.error e, [PEv.invoke server.id nameV argsV])
      | Except.ok res =>
        let tc : ToolCall :=
          { tid := cs "tool-" ++ natChars n
            serverId := server.id
            serverName := server.name
            name := nameV
            args := argsV
            result := some res
            error := none }
        (Except.ok (tc, resOpenTag ++ stringify2 res ++ resCloseTag),
          [PEv.invoke server.id nameV argsV])

/-- `ToolProcessor.processJsonToolCall`: strip the tags, trim, parse the
body directly, else parse the greedy brace substring, else throw "No
valid JSON found"; then resolve and dispatch. `Except.error` is a thrown
exception (caught by `processToolCalls`). -/
def processJsonToolCall (env : PEnv) (m : List Char) (servers : List MCPServer) (n : Nat) :
    Except (List Char) (ToolCall × List Char) × List PEv :=
  let toolData := jsTrim (removeTags openCallTag closeCallTag m)
  match jparse toolData with
  | some v => handleParsed env v servers n
  | none =>
    match greedyBrace toolData with
    | some sub =>
      match jparse sub with
      | some v => handleParsed env v servers n
      | none => (Except.error (env.jsonErrMsg sub), [])
    | none =>
      (Except.error
        (cs "No valid JSON found in tool call data: " ++ toolData.take 100 ++ cs "..."), [])

/-- The inner capture of `codeContent.match(/print\((.+)\)/)`: at each
occurrence of `print(` (left to right), the greedy dot-run is limited to
the current line (`.` matches neither `\n` nor `\r`) and must end at a
`)` preceded by at least one captured character; the last such `)` of
the line segment wins. -/
def printInnerF : Nat → List Char → Option (List Char)
  | 0, _ => none
  | f + 1, s =>
    match firstIdx (cs "print(") s with
    | none => none
    | some i =>
      let after := s.drop (i + 6)
      let seg := after.takeWhile (fun c => ¬ (c == '\n' || c == '\r'))
      match lastIdxCh ')' seg with
      | some j =>
        if 1 ≤ j then some (seg.take j)
        else printInnerF f (s.drop (i + 1))
      | none => printInnerF f (s.drop (i + 1))

def printInner (s : List Char) : Option (List Char) :=
  printInnerF s.length s

/-- All matches of `/(\w+)\(([^)]*)\)/g`: a maximal word run directly
followed by `(`, with the argument capture running to the first `)`;
scanning resumes after each match. -/
def scanCallsF : Nat → List Char → List (List Char × List Char)
  | 0, _ => []
  | _ + 1, [] => []
  | f + 1, c :: rest =>
    if isWordCh c then
      let w := c :: rest.takeWhile isWordCh
      let after := rest.drop (rest.takeWhile isWordCh).length
      match after with
      | '(' :: r2 =>
        match splitAtCh ')' r2 with
        | some (contents, r3) => (w, contents) :: scanCallsF f r3
        | none => []
      | _ => scanCallsF f after
    else scanCallsF f rest

def scanCalls (s : List Char) : List (List Char × List Char) :=
  scanCallsF s.length s

/-- Strip one leading and one trailing quote character
(`replace(/^['"`]|['"`]$/g, "")`). -/
def stripQuotesEnds (s : List Char) : List Char :=
  let isQ : Char → Bool := fun c => c == '\'' || c == '"' || c == '`'
  let s1 := match s with
    | c :: r => if isQ c then r else s
    | [] => []
  match s1.getLast? with
  | some c => if isQ c then s1.dropLast else s1
  | none => s1

/-- One comma-separated piece of `parseFunctionArgs`: `key=value` pieces
update the object under the trimmed key (falsy, i.e. empty, key or value
is skipped); a bare token is assigned to the hard-coded parameter name
`symbol`. -/
def pfaStep (acc : List (List Char × JVal)) (piece : List Char) : List (List Char × JVal) :=
  let t := jsTrim piece
  if t.contains '=' then
    match splitAtCh '=' t with
    | some (key, value) =>
      if key.isEmpty || value.isEmpty then acc
      else mapSet acc (jsTrim key) (JVal.js (stripQuotesEnds (jsTrim value)))
    | none => acc
  else if t.isEmpty then acc
  else mapSet acc (cs "symbol") (JVal.js (stripQuotesEnds t))

/-- `ToolProcessor.parseFunctionArgs`: split the argument text on every
comma and fold the pieces into a JS object. -/
def parseFunctionArgs (argsString : List Char) : JVal :=
  JVal.jo ((argsString.splitOn ',').foldl pfaStep [])

/-- The per-server loop of `processCodeToolCall`: list the server's
tools, and if one is named like the parsed function, dispatch to it; a
rejected dispatch is caught and the search continues with the next
server. -/
def tryServers (env : PEnv) (fname : List Char) (argsObj : JVal) (n : Nat) :
    List MCPServer → Option (ToolCall × List Char) × List PEv
  | [] => (none, [])
  | srv :: rest =>
    if (env.listTools srv).any (fun t => t.name == fname) then
      match env.callTool srv (some (JVal.js fname)) (some argsObj) with
      | Except.ok res =>
        (some
          ({ tid := cs "tool-code-" ++ natChars n
             serverId := srv.id
             serverName := srv.name
             name := some (JVal.js fname)
             args := some argsObj
             result := some res
             error := none },
            resOpenTag ++ stringify2 res ++ resCloseTag),
          [PEv.invoke srv.id (some (JVal.js fname)) (some argsObj)])
      | Except.error _ =>
        let p := tryServers env fname argsObj n rest
        (p.1, PEv.invoke srv.id (some (JVal.js fname)) (some argsObj) :: p.2)
    else tryServers env fname argsObj n rest

/-- The outer loop of `processCodeToolCall` over the parsed function
calls: the first one that resolves anywhere is executed; if none does,
the whole block throws "Tool not found in any active server". -/
def tryFunctions (env : PEnv) (servers : List MCPServer) (n : Nat) :
    List (List Char × List Char) → Except (List Char) (ToolCall × List Char) × List PEv
  | [] => (Except.error (cs "Tool not found in any active server"), [])
  | (fname, argsStr) :: rest =>
    let argsObj := parseFunctionArgs argsStr
    let p := tryServers env fname argsObj n servers
    match p.1 with
    | some rc => (Except.ok rc, p.2)
    | none =>
      let q := tryFunctions env servers n rest
      (q.1, p.2 ++ q.2)

/-- `ToolProcessor.processCodeToolCall`: strip the tags, unwrap an outer
`print(...)` if present, scan for `name(args)` pairs, and try them in
order. -/
def processCodeToolCall (env : PEnv) (m : List Char) (servers : List MCPServer) (n : Nat) :
    Except (List Char) (ToolCall × List Char) × List PEv :=
  let codeContent := jsTrim (removeTags openCodeTag closeCodeTag m)
  let fns := match printInner codeContent with
    | some inner => scanCalls inner
    | none => scanCalls codeContent
  tryFunctions env servers n fns

/-- Accumulator of `processToolCalls`: the progressively substituted
text, the accumulated records, the dispatch trace, and a freshness
counter standing in for `Date.now()`/`Math.random()` record ids. -/
structure PState where
  text : List Char
  calls : List ToolCall
  trace : List PEv
  ctr : Nat

/-- One iteration of the `<tool_call>` loop of `processToolCalls`: on
success push the record and substitute the `<tool_result>` marker for
the first occurrence of the match; on a thrown error substitute a
`<tool_error>` marker and keep going. -/
def jsonStep (env : PEnv) (servers : List MCPServer) (st : PState) (m : List Char) : PState :=
  match processJsonToolCall env m servers st.ctr with
  | (Except.ok (tc, repl), evs) =>
    { text := replaceFirst m repl st.text
      calls := st.calls ++ [tc]
      trace := st.trace ++ evs
      ctr := st.ctr + 1 }
  | (Except.error msg, evs) =>
    { st with
      text := replaceFirst m (errOpenTag ++ msg ++ errCloseTag) st.text
      trace := st.trace ++ evs }

/-- One iteration of the `<tool_code>` loop of `processToolCalls`. -/
def codeStep (env : PEnv) (servers : List MCPServer) (st : PState) (m : List Char) : PState :=
  match processCodeToolCall env m servers st.ctr with
  | (Except.ok (tc, repl), evs) =>
    { text := replaceFirst m repl st.text
      calls := st.calls ++ [tc]
      trace := st.trace ++ evs
      ctr := st.ctr + 1 }
  | (Except.error msg, evs) =>
    { st with
      text := replaceFirst m (errOpenTag ++ msg ++ errCloseTag) st.text
      trace := st.trace ++ evs }

/-- `ToolProcessor.processToolCalls`: match both span kinds against the
original response, then process all `<tool_call>` matches and afterwards
all `<tool_code>` matches, each loop substituting in the shared
`processedResponse`. -/
def processToolCalls (env : PEnv) (response : List Char) (servers : List MCPServer) : PState :=
  let callMatches := matchSpans openCallTag closeCallTag response
  let codeMatches := matchSpans openCodeTag closeCodeTag response
  let st1 := callMatches.foldl (jsonStep env servers) ⟨response, [], [], 0⟩
  codeMatches.foldl (codeStep env servers) st1

/-! ## Model of the native-tool-calling provider adapters

Translated from `OpenAIProvider.generateResponseWithTools` and
`AnthropicProvider.generateResponseWithTools`. The vendor endpoint's
responses are the environment; the dispatcher (`mcpService.callTool`)
appears as an oracle as for the normalizer. The `withRetry` wrapper
re-runs the closure only when it throws; the environments model the
vendor endpoints as responding (tool-call rejections are caught inside
the loop and never reach `withRetry`). -/

/-- A flattened catalog entry as built by `AIService.getAvailableTools`:
note that the composite `id` of the service's descriptor is dropped. -/
structure CatalogTool where
  name : List Char
  description : Option (List Char)
  inputSchema : Option JVal
  serverId : List Char
  serverName : List Char

/-- `AIService.getAvailableTools`: fan `listTools` out over the servers
in iteration order and flatten, rebuilding entries without the
composite id. -/
def getAvailableTools (listT : MCPServer → List MCPTool) (servers : List MCPServer) :
    List CatalogTool :=
  (servers.map (fun srv =>
    (listT srv).map (fun t =>
      ({ name := t.name
         description := t.description
         inputSchema := t.inputSchema
         serverId := srv.id
         serverName := srv.name } : CatalogTool)))).flatten

/-- One vendor-requested tool call in an OpenAI response
(`choices[0].message.tool_calls[i]`); `fargsRaw` is the JSON text of
`function.arguments`. -/
structure OAIToolCall where
  ocid : List Char
  fname : List Char
  fargsRaw : List Char

structure OAIMessage where
  content : Option (List Char)
  tool_calls : List OAIToolCall

/-- An `executedToolCalls` entry. The success shape is
`{id, name, args, result, serverId, serverName}`; the catch shape is
only `{id, name, error}`. -/
structure ProvToolCall where
  pid : List Char
  name : List Char
  args : Option JVal
  result : Option JVal
  error : Option (List Char)
  serverId : Option (List Char)
  serverName : Option (List Char)

/-- The adapter's externally visible result
(`{success, response?, error?, toolCalls?}`). -/
structure AIResp where
  success : Bool
  response : Option (List Char)
  error : Option (List Char)
  toolCalls : Option (List ProvToolCall)

/-- Externally visible provider events: vendor completion requests and
tool dispatches, in program order. -/
inductive ProvEv where
  | completion
  | invoke (serverId : List Char) (name : List Char)
deriving DecidableEq, Repr

structure OAIEnv where
  firstResp : Option OAIMessage
  followUpContent : Option (List Char)
  callTool : MCPServer → List Char → JVal → Except (List Char) JVal
  jsonErrMsg : List Char → List Char

/-- The body of OpenAI's per-tool-call loop iteration: parse the
argument text, resolve the catalog entry by bare name and the server by
the entry's `serverId`; dispatch only when both resolve (an unresolved
call is skipped without a record); any thrown error inside the
iteration is caught and recorded as an `{id, name, error}` record. -/
def oaiCallStep (env : OAIEnv) (tools : List CatalogTool) (servers : List MCPServer)
    (tc : OAIToolCall) : Option ProvToolCall × List ProvEv :=
  match jparse tc.fargsRaw with
  | none =>
    (some { pid := tc.ocid, name := tc.fname, args := none, result := none
            error := some (env.jsonErrMsg tc.fargsRaw), serverId := none, serverName := none },
      [])
  | some argsV =>
    match tools.find? (fun t => t.name == tc.fname) with
    | none => (none, [])
    | some tool =>
      match servers.find? (fun s => s.id == tool.serverId) with
      | none => (none, [])
      | some srv =>
        match env.callTool srv tc.fname argsV with
        | Except.ok res =>
          (some { pid := tc.ocid, name := tc.fname, args := some argsV, result := some res
                  error := none, serverId := some srv.id, serverName := some srv.name },
            [ProvEv.invoke srv.id tc.fname])
        | Except.error e =>
          (some { pid := tc.ocid, name := tc.fname, args := none, result := none
                  error := some e, serverId := none, serverName := none },
            [ProvEv.invoke srv.id tc.fname])

/-- `OpenAIProvider.generateResponseWithTools`: first completion; if the
message carries no tool calls the first-pass text is final and no
follow-up request is made; otherwise process every tool call in order
and issue exactly one follow-up completion. -/
def oaiGenerateWithTools (env : OAIEnv) (tools : List CatalogTool) (servers : List MCPServer) :
    AIResp × List ProvEv :=
  match env.firstResp with
  | none =>
    ({ success := false, response := none
       error := some (cs "No response from OpenAI"), toolCalls := none },
      [ProvEv.completion])
  | some msg =>
    let firstText := match msg.content with
      | some c => c
      | none => []
    if msg.tool_calls.isEmpty then
      ({ success := true, response := some firstText, error := none, toolCalls := some [] },
        [ProvEv.completion])
    else
      let folded := msg.tool_calls.foldl
        (fun (acc : List ProvToolCall × List ProvEv) tc =>
          let r := oaiCallStep env tools servers tc
          (acc.1 ++ (match r.1 with | some pr => [pr] | none => []), acc.2 ++ r.2))
        ([], [])
      let final := match env.followUpContent with
        | some c => if c.isEmpty then firstText else c
        | none => firstText
      ({ success := true, response := some final, error := none, toolCalls := some folded.1 },
        ProvEv.completion :: folded.2 ++ [ProvEv.completion])

/-- A content block of an Anthropic response. -/
inductive AContent where
  | text (t : List Char)
  | tool_use (aid : List Char) (name : List Char) (input : JVal)

structure AnthEnv where
  firstContent : List AContent
  followUpFirstText : Option (List Char)
  callTool : MCPServer → List Char → JVal → Except (List Char) JVal

/-- The body of Anthropic's per-block loop for a `tool_use` block:
resolution by bare name, silent skip when unresolved, an
`{id, name, error}` record when the dispatch rejects. -/
def anthUseStep (env : AnthEnv) (tools : List CatalogTool) (servers : List MCPServer)
    (aid nm : List Char) (input : JVal) : Option ProvToolCall × List ProvEv :=
  match tools.find? (fun t => t.name == nm) with
  | none => (none, [])
  | some tool =>
    match servers.find? (fun s => s.id == tool.serverId) with
    | none => (none, [])
    | some srv =>
      match env.callTool srv nm input with
      | Except.ok res =>
        (some { pid := aid, name := nm, args := some input, result := some res
                error := none, serverId := some srv.id, serverName := some srv.name },
          [ProvEv.invoke srv.id nm])
      | Except.error e =>
        (some { pid := aid, name := nm, args := none, result := none
                error := some e, serverId := none, serverName := none },
          [ProvEv.invoke srv.id nm])

/-- `AnthropicProvider.generateResponseWithTools`: concatenate the text
blocks into the first-pass text, execute the `tool_use` blocks in
order, and issue one follow-up completion only when at least one record
was collected. -/
def anthGenerateWithTools (env : AnthEnv) (tools : List CatalogTool) (servers : List MCPServer) :
    AIResp × List ProvEv :=
  let folded := env.firstContent.foldl
    (fun (acc : List Char × List ProvToolCall × List ProvEv) c =>
      match c with
      | AContent.text t => (acc.1 ++ t, acc.2.1, acc.2.2)
      | AContent.tool_use aid nm input =>
        let r := anthUseStep env tools servers aid nm input
        (acc.1, acc.2.1 ++ (match r.1 with | some pr => [pr] | none => []), acc.2.2 ++ r.2))
    ([], [], [])
  let firstText := folded.1
  let executed := folded.2.1
  if executed.isEmpty then
    ({ success := true, response := some firstText, error := none, toolCalls := some executed },
      ProvEv.completion :: folded.2.2)
  else
    let final := match env.followUpFirstText with
      | some c => if c.isEmpty then firstText else c
      | none => firstText
    ({ success := true, response := some final, error := none, toolCalls := some executed },
      ProvEv.completion :: folded.2.2 ++ [ProvEv.completion])



/-! ## Concrete fixtures used by witnesses and counterexamples -/

def envMCP : MCPEnv :=
  { pingOk := fun _ => true
    connectOk := fun _ => true
    connectErr := fun _ => cs "connect error"
    listToolsResp := fun _ _ => Except.ok []
    callToolResp := fun _ _ _ _ => Except.ok JVal.jnull }

/-- An SSE server config. -/
def srvSSE1 : MCPServer :=
  { id := cs "s", name := cs "S", stype := cs "sse", baseUrl := some (cs "http://x")
    command := none, args := none, env := none
    headers := some [(cs "Authorization", cs "Bearer 1")]
    isActive := true, timeout := none }

/-- Identical to `srvSSE1` except for the `headers` connection
parameter. -/
def srvSSE2 : MCPServer :=
  { srvSSE1 with headers := some [(cs "Authorization", cs "Bearer 2")] }

def srvA : MCPServer :=
  { id := cs "a", name := cs "A", stype := cs "stdio", baseUrl := none
    command := some (cs "cmd"), args := none, env := none, headers := none
    isActive := true, timeout := none }

def srvB : MCPServer :=
  { id := cs "b", name := cs "B", stype := cs "stdio", baseUrl := none
    command := some (cs "cmd2"), args := none, env := none, headers := none
    isActive := true, timeout := none }

/-- A normalizer environment in which every server exposes one tool
named `f` and every dispatch succeeds with the string payload "ok". -/
def envOk : PEnv :=
  { listTools := fun _ => [⟨cs "f", none, none⟩]
    callTool := fun _ _ _ => Except.ok (JVal.js (cs "ok"))
    jsonErrMsg := fun _ => cs "Unexpected token"
    destructureNullMsg := cs "Cannot destructure" }

/-- Like `envOk` but every dispatch rejects with message "boom". -/
def envFail : PEnv :=
  { envOk with callTool := fun _ _ _ => Except.error (cs "boom") }

def respA : List Char :=
  cs "hi <tool_call>\x7b\"serverId\":\"a\",\"name\":\"t\",\"args\":1\x7d</tool_call> bye"

/-- A `<tool_code>` span textually before a `<tool_call>` span. -/
def respMix : List Char :=
  cs "<tool_code>f()</tool_code> mid <tool_call>\x7b\"serverId\":\"b\",\"name\":\"g\",\"args\":2\x7d</tool_call>"

/-- A span whose body fails a direct JSON parse and whose greedy
first-brace-to-last-brace substring is also invalid, while its first
balanced brace group is valid JSON naming server `a`. -/
def spanC6 : List Char :=
  cs "<tool_call>\x7b\"serverId\":\"a\",\"name\":\"t\",\"args\":\x7b\x7d\x7d \x7b\"x\":1\x7d</tool_call>"

def evServer : PEv → List Char
  | PEv.invoke sid _ _ => sid

/-- Like `envMCP` but every connection attempt fails. -/
def envMCPFail : MCPEnv :=
  { envMCP with connectOk := fun _ => false }

/-- Like `envMCP` but tool listing yields one tool named `f`. -/
def envMCPTools : MCPEnv :=
  { envMCP with listToolsResp := fun _ _ => Except.ok [⟨cs "f", none, none⟩] }

/-- Concatenation of the text blocks of an Anthropic response (the
first-pass text when no tool is used). -/
def textConcat : List AContent → List Char
  | [] => []
  | AContent.text t :: rest => t ++ textConcat rest
  | AContent.tool_use _ _ _ :: rest => textConcat rest

/-- The first server in iteration order whose tool list contains a tool
with the given name. -/
def firstServerWithTool (listT : MCPServer → List MCPTool) (n : List Char) :
    List MCPServer → Option MCPServer
  | [] => none
  | srv :: rest =>
    if (listT srv).any (fun t => t.name == n) then some srv
    else firstServerWithTool listT n rest

/-- An OpenAI response with plain text and no tool calls. -/
def envOAI0 : OAIEnv :=
  { firstResp := some ⟨some (cs "hello"), []⟩
    followUpContent := some (cs "FOLLOW-UP")
    callTool := fun _ _ _ => Except.ok JVal.jnull
    jsonErrMsg := fun _ => cs "Unexpected token" }

/-- An Anthropic response consisting of two text blocks only. -/
def envAnth0 : AnthEnv :=
  { firstContent := [AContent.text (cs "hel"), AContent.text (cs "lo")]
    followUpFirstText := some (cs "FOLLOW-UP")
    callTool := fun _ _ _ => Except.ok JVal.jnull }

/-- An OpenAI response requesting one tool call whose name resolves to
no catalog entry. -/
def envOAI1 : OAIEnv :=
  { envOAI0 with
    firstResp := some ⟨some (cs "hi"), [⟨cs "call_1", cs "nope", cs "\x7b\x7d"⟩]⟩ }

/-- A per-server tool table on which `a` and `b` both expose `search`. -/
def listBoth (srv : MCPServer) : List MCPTool :=
  [{ id := srv.name ++ cs ".search", name := cs "search", description := none
     inputSchema := none, serverId := srv.id, serverName := srv.name }]

/-- An OpenAI response requesting one `search` call, for the duplicate
tool-name dispatch scenario. -/
def envOAI2 : OAIEnv :=
  { envOAI0 with
    firstResp := some ⟨none, [⟨cs "call_2", cs "search", cs "\x7b\x7d"⟩]⟩ }

/-- The replacement substituted for a `<tool_call>` span: the
`<tool_result>` marker on success, the `<tool_error>` marker on a
thrown error. -/
def stepRepl : Except (List Char) (ToolCall × List Char) → List Char
  | Except.ok (_, repl) => repl
  | Except.error msg => errOpenTag ++ msg ++ errCloseTag

def stepOk : Except (List Char) (ToolCall × List Char) → Bool
  | Except.ok _ => true
  | Except.error _ => false

/-- The per-span increment of the record-id counter. -/
def stepInc : Except (List Char) (ToolCall × List Char) → Nat
  | Except.ok _ => 1
  | Except.error _ => 0

/-- The expected outcome of the `<tool_call>` loop on a (gap, span)
decomposition: the substituted text up to the final gap, the records,
the dispatch trace and the final counter, each span contributing
independently of the others. -/
def expRun (env : PEnv) (servers : List MCPServer) :
    List (List Char × List Char) → Nat →
      List Char × List ToolCall × List PEv × Nat
  | [], n => ([], [], [], n)
  | (g, sp) :: rest, n =>
    match processJsonToolCall env sp servers n with
    | (Except.ok (tc, repl), evs) =>
      let r := expRun env servers rest (n + 1)
      (g ++ repl ++ r.1, tc :: r.2.1, evs ++ r.2.2.1, r.2.2.2)
    | (Except.error msg, evs) =>
      let r := expRun env servers rest n
      (g ++ (errOpenTag ++ msg ++ errCloseTag) ++ r.1, r.2.1, evs ++ r.2.2.1, r.2.2.2)

/-- Freshness of a decomposition: before each span is substituted, the
already-substituted prefix (including the span's own gap) contains no
occurrence of the `<tool_call>` open tag, so first-occurrence
replacement hits the span itself. The substituted markers can violate
this only when an error message smuggles a full span back into the
text 'see the C1 analysis'. -/
inductive FreshRun (env : PEnv) (servers : List MCPServer) :
    List Char → List (List Char × List Char) → Nat → Prop
  | nil (D : List Char) (n : Nat) : FreshRun env servers D [] n
  | cons (D g sp : List Char) (rest : List (List Char × List Char)) (n : Nat) :
      containsSub openCallTag (D ++ g) = false →
      FreshRun env servers
        (D ++ g ++ stepRepl (processJsonToolCall env sp servers n).1) rest
        (n + stepInc (processJsonToolCall env sp servers n).1) →
      FreshRun env servers D ((g, sp) :: rest) n

/-- Records / trace / final counter of the `<tool_call>` loop as a
function of the match list alone (independent of the text being
substituted). -/
def jrun (env : PEnv) (servers : List MCPServer) :
    List (List Char) → Nat → List ToolCall × List PEv × Nat
  | [], n => ([], [], n)
  | m :: rest, n =>
    match processJsonToolCall env m servers n with
    | (Except.ok (tc, _), evs) =>
      let r := jrun env servers rest (n + 1)
      (tc :: r.1, evs ++ r.2.1, r.2.2)
    | (Except.error _, evs) =>
      let r := jrun env servers rest n
      (r.1, evs ++ r.2.1, r.2.2)

/-- Records / trace / final counter of the `<tool_code>` loop. -/
def crun (env : PEnv) (servers : List MCPServer) :
    List (List Char) → Nat → List ToolCall × List PEv × Nat
  | [], n => ([], [], n)
  | m :: rest, n =>
    match processCodeToolCall env m servers n with
    | (Except.ok (tc, _), evs) =>
      let r := crun env servers rest (n + 1)
      (tc :: r.1, evs ++ r.2.1, r.2.2)
    | (Except.error _, evs) =>
      let r := crun env servers rest n
      (r.1, evs ++ r.2.1, r.2.2)

/-- Modelled from the spec: "on failure, fall back to extracting the
first balanced `\x7b...\x7d` substring and parse that". This is the
balanced-brace extraction the spec describes — it is NOT what the code
does (the code takes the greedy first-brace-to-last-brace substring);
it exists only to compare the two (claim C6). -/
def balFrom : Nat → Nat → List Char → List Char → Option (List Char)
  | 0, _, _, _ => none
  | _ + 1, _, _, [] => none
  | f + 1, depth, acc, c :: rest =>
    if c == '\x7b' then balFrom f (depth + 1) (acc ++ [c]) rest
    else if c == '\x7d' then
      if depth == 1 then some (acc ++ [c])
      else balFrom f (depth - 1) (acc ++ [c]) rest
    else balFrom f depth (acc ++ [c]) rest

/-- Modelled from the spec: the first balanced brace group of `s`. -/
def extractFirstBalanced (s : List Char) : Option (List Char) :=
  match firstIdx ['\x7b'] s with
  | none => none
  | some i => balFrom (s.length + 1) 0 [] (s.drop i)

/-- Witness response for C1: one succeeding span and one span naming an
unknown server, with plain text around them. -/
def respC1W : List Char :=
  cs "A<tool_call>\x7b\"serverId\":\"a\",\"name\":\"t\",\"args\":1\x7d</tool_call>B<tool_call>\x7b\"serverId\":\"zz\",\"name\":\"u\",\"args\":2\x7d</tool_call>C"

/-- A span whose body fails a direct parse but whose greedy
first-brace-to-last-brace substring is valid JSON. -/
def spanG : List Char :=
  cs "<tool_call>junk \x7b\"serverId\":\"a\",\"name\":\"t\",\"args\":3\x7d end</tool_call>"

-- ===================================================================
-- Theorems
-- ===================================================================

/-! ### Association-map lemmas -/

theorem mapGet_cons {κ ν : Type} [DecidableEq κ] (a : κ) (b : ν) (rest : List (κ × ν)) (k : κ) :
    mapGet ((a, b) :: rest) k = if k = a then some b else mapGet rest k := rfl

theorem mapGet_overwrite {κ ν : Type} [DecidableEq κ] (m : List (κ × ν)) (k k' : κ) (v : ν) :
    mapGet (m.map (fun p => if p.1 = k then (k, v) else p)) k' =
      if k' = k ∧ (mapGet m k).isSome then some v else mapGet m k' := by
  induction m with
  | nil => simp [mapGet]
  | cons p rest ih =>
    obtain ⟨a, b⟩ := p
    rcases eq_or_ne a k with hk | hk
    · subst hk
      by_cases hk' : k' = a
      · simp [mapGet_cons, hk']
      · simp [mapGet_cons, hk', ih]
    · by_cases hk' : k' = a
      · simp [mapGet_cons, hk', hk, Ne.symm hk]
      · simp [mapGet_cons, hk', ih, hk, Ne.symm hk]

theorem mapGet_append_single {κ ν : Type} [DecidableEq κ] (m : List (κ × ν)) (k k' : κ) (v : ν) :
    mapGet (m ++ [(k, v)]) k' =
      match mapGet m k' with
      | some w => some w
      | none => if k' = k then some v else none := by
  induction m with
  | nil => simp [mapGet]
  | cons p rest ih =>
    obtain ⟨a, b⟩ := p
    rcases eq_or_ne k' a with hk' | hk'
    · simp [mapGet_cons, hk']
    · simp only [List.cons_append, mapGet_cons, if_neg hk']
      exact ih

theorem mapGet_mapSet_self {κ ν : Type} [DecidableEq κ] (m : List (κ × ν)) (k : κ) (v : ν) :
    mapGet (mapSet m k v) k = some v := by
  unfold mapSet
  split
  · next h => rw [mapGet_overwrite, if_pos ⟨rfl, h⟩]
  · next h =>
    rw [mapGet_append_single]
    have hm : mapGet m k = none := by
      cases hm : mapGet m k with
      | none => rfl
      | some w => exact absurd (by simp [hm]) h
    simp [hm]

theorem mapGet_mapSet_ne {κ ν : Type} [DecidableEq κ] (m : List (κ × ν)) (k k' : κ) (v : ν)
    (h : k' ≠ k) : mapGet (mapSet m k v) k' = mapGet m k' := by
  unfold mapSet
  split
  · rw [mapGet_overwrite]
    simp [h]
  · rw [mapGet_append_single]
    cases hm : mapGet m k' with
    | some w => rfl
    | none => simp [h]

theorem mapGet_mapDel_self {κ ν : Type} [DecidableEq κ] (m : List (κ × ν)) (k : κ) :
    mapGet (mapDel m k) k = none := by
  induction m with
  | nil => rfl
  | cons p rest ih =>
    obtain ⟨a, b⟩ := p
    rcases eq_or_ne a k with hk | hk
    · subst hk
      simpa [mapDel] using ih
    · simp only [mapDel, List.filter_cons]
      rw [if_pos (by simp [hk])]
      rw [mapGet_cons, if_neg (Ne.symm hk)]
      simpa [mapDel] using ih

theorem mapGet_mapDel_ne {κ ν : Type} [DecidableEq κ] (m : List (κ × ν)) (k k' : κ)
    (h : k' ≠ k) : mapGet (mapDel m k) k' = mapGet m k' := by
  induction m with
  | nil => rfl
  | cons p rest ih =>
    obtain ⟨a, b⟩ := p
    rcases eq_or_ne a k with hk | hk
    · subst hk
      simp only [mapDel, List.filter_cons]
      rw [if_neg (by simp)]
      rw [mapGet_cons, if_neg h]
      simpa [mapDel] using ih
    · simp only [mapDel, List.filter_cons]
      rw [if_pos (by simp [hk])]
      rw [mapGet_cons, mapGet_cons]
      rcases eq_or_ne k' a with hk' | hk'
      · simp [hk']
      · rw [if_neg hk', if_neg hk']
        simpa [mapDel] using ih

/-! ### Session registry (C2) -/

theorem connectNew_ok_lookup (env : MCPEnv) (s : MCPServer) (st : MCPState) (c : Client)
    (st' : MCPState) (h : connectNew env s st = (Except.ok c, st')) :
    mapGet st'.clients (getServerKey s) = some c := by
  unfold connectNew at h
  split at h
  · split at h
    · split at h
      · rw [Prod.mk.injEq] at h
        obtain ⟨h1, h2⟩ := h
        cases h1
        rw [← h2]
        exact mapGet_mapSet_self _ _ _
      · exact absurd (congrArg Prod.fst h) (by simp)
    · exact absurd (congrArg Prod.fst h) (by simp)
  · split at h
    · split at h
      · rw [Prod.mk.injEq] at h
        obtain ⟨h1, h2⟩ := h
        cases h1
        rw [← h2]
        exact mapGet_mapSet_self _ _ _
      · exact absurd (congrArg Prod.fst h) (by simp)
    · exact absurd (congrArg Prod.fst h) (by simp)

theorem connectNew_other_lookup (env : MCPEnv) (s : MCPServer) (st : MCPState) (k : ServerKey)
    (hk : k ≠ getServerKey s) :
    mapGet ((connectNew env s st).2).clients k = mapGet st.clients k := by
  unfold connectNew
  split
  · split
    · split
      · exact mapGet_mapSet_ne _ _ _ _ hk
      · rfl
    · rfl
  · split
    · split
      · exact mapGet_mapSet_ne _ _ _ _ hk
      · rfl
    · rfl

theorem initClient_ok_lookup (env : MCPEnv) (s : MCPServer) (st : MCPState) (c : Client)
    (st' : MCPState) (h : initClient env s st = (Except.ok c, st')) :
    mapGet st'.clients (getServerKey s) = some c := by
  unfold initClient at h
  split at h
  · next c0 hc0 =>
    split at h
    · rw [Prod.mk.injEq] at h
      obtain ⟨h1, h2⟩ := h
      cases h1
      rw [← h2]
      exact hc0
    · exact connectNew_ok_lookup _ _ _ _ _ h
  · exact connectNew_ok_lookup _ _ _ _ _ h

/-- C2 (counterexample): the claim "two configs differing in any
connection parameter never share a session" is false. `srvSSE1` and
`srvSSE2` differ in the `headers` connection parameter (the headers are
passed to the SSE transport), yet `getServerKey` ignores `headers`, so
after acquiring a session for `srvSSE1`, acquiring one for `srvSSE2`
returns the very same client object. -/
theorem initClient_headers_share_session :
    srvSSE1.headers ≠ srvSSE2.headers ∧
    srvSSE1 ≠ srvSSE2 ∧
    (initClient envMCP srvSSE1 emptyMCPState).1 = Except.ok ⟨0⟩ ∧
    (initClient envMCP srvSSE2 (initClient envMCP srvSSE1 emptyMCPState).2).1 =
      Except.ok ⟨0⟩ ∧
    (initClient envMCP srvSSE2 (initClient envMCP srvSSE1 emptyMCPState).2).2 =
      (initClient envMCP srvSSE1 emptyMCPState).2 :=
  ⟨by decide, by decide, rfl, rfl, rfl⟩

/-- C2 (amended): the Session Registry keys sessions by `getServerKey`,
a fingerprint of exactly `baseUrl`, `command`, the array-normalized
`args`, `env` and `id` (not `type`, `headers` or `timeout`). Acquiring
twice in sequence with the same config and no intervening release
returns the same live client object whenever the liveness ping
succeeds, and an acquire for a config with a different fingerprint
leaves this config's session binding untouched. -/
theorem initClient_reuse_and_fingerprint :
    (∀ (env : MCPEnv) (s : MCPServer) (st : MCPState) (c : Client) (st' : MCPState),
      initClient env s st = (Except.ok c, st') → env.pingOk c.cid = true →
      initClient env s st' = (Except.ok c, st')) ∧
    (∀ s1 s2 : MCPServer, getServerKey s1 = getServerKey s2 ↔
      (s1.baseUrl = s2.baseUrl ∧ s1.command = s2.command ∧
       s1.args.getD [] = s2.args.getD [] ∧ s1.env = s2.env ∧ s1.id = s2.id)) ∧
    (∀ (env : MCPEnv) (s1 s2 : MCPServer) (st : MCPState),
      getServerKey s1 ≠ getServerKey s2 →
      mapGet ((initClient env s1 st).2).clients (getServerKey s2) =
        mapGet st.clients (getServerKey s2)) := by
  refine ⟨?_, ?_, ?_⟩
  · intro env s st c st' h hping
    have hl := initClient_ok_lookup env s st c st' h
    unfold initClient
    rw [hl]
    simp only [hping, if_pos]
  · intro s1 s2
    unfold getServerKey
    rw [ServerKey.mk.injEq]
  · intro env s1 s2 st hne
    unfold initClient
    split
    · next c0 hc0 =>
      split
      · rfl
      · rw [connectNew_other_lookup _ _ _ _ (Ne.symm hne)]
        exact mapGet_mapDel_ne _ _ _ (Ne.symm hne)
    · exact connectNew_other_lookup _ _ _ _ (Ne.symm hne)

/-- C2 (witness): the reuse clause of `initClient_reuse_and_fingerprint`
applied to the concrete `srvSSE1` scenario. -/
theorem initClient_reuse_witness :
    initClient envMCP srvSSE1 (initClient envMCP srvSSE1 emptyMCPState).2 =
      (Except.ok ⟨0⟩, (initClient envMCP srvSSE1 emptyMCPState).2) :=
  initClient_reuse_and_fingerprint.1 envMCP srvSSE1 emptyMCPState ⟨0⟩
    (initClient envMCP srvSSE1 emptyMCPState).2 rfl rfl

/-- C3: for every `callTool` invocation, whatever the environment does
(connection failure, successful result, thrown error, or cancellation —
the latter two being the `Except.error` responses of the transport),
the `activeToolCalls` registration for the call's id is gone once the
call settles, and the event trace is exactly a registration, then
(when a session was obtained) the transport invocation, then the
removal. -/
theorem svcCallTool_scoped_registration (env : MCPEnv) (server : MCPServer)
    (nameArg args : Option JVal) (callId : Option (List Char)) (st : MCPState) :
    mapGet ((svcCallTool env server nameArg args callId st).2.1).activeToolCalls
      (resolveCallId callId (cs "uuid-" ++ natChars st.nextId)) = none ∧
    ∃ mid, (svcCallTool env server nameArg args callId st).2.2 =
        SvcEv.registered (resolveCallId callId (cs "uuid-" ++ natChars st.nextId)) :: mid ++
          [SvcEv.removed (resolveCallId callId (cs "uuid-" ++ natChars st.nextId))] ∧
      (mid = [] ∨
        mid = [SvcEv.invoked (resolveCallId callId (cs "uuid-" ++ natChars st.nextId))
          server.id]) := by
  dsimp only [svcCallTool]
  split
  · exact ⟨mapGet_mapDel_self _ _, [], rfl, Or.inl rfl⟩
  · exact ⟨mapGet_mapDel_self _ _, [SvcEv.invoked _ server.id], rfl, Or.inr rfl⟩

/-- C8: `abortTool` returns `true` and removes the registration exactly
when a handle is registered under the id (so a second abort on the same
id returns `false`), and is a no-op returning `false` for unknown or
already-completed ids. -/
theorem abortTool_semantics (st : MCPState) (callId : List Char) :
    ((mapGet st.activeToolCalls callId).isSome →
      (abortTool callId st).1 = true ∧
      mapGet ((abortTool callId st).2).activeToolCalls callId = none ∧
      (abortTool callId (abortTool callId st).2).1 = false) ∧
    (mapGet st.activeToolCalls callId = none → abortTool callId st = (false, st)) := by
  constructor
  · intro hs
    cases hm : mapGet st.activeToolCalls callId with
    | none => rw [hm] at hs; simp at hs
    | some ctrl =>
      have h1 : abortTool callId st =
          (true, { st with activeToolCalls := mapDel st.activeToolCalls callId }) := by
        unfold abortTool
        rw [hm]
      refine ⟨by rw [h1], ?_, ?_⟩
      · rw [h1]
        exact mapGet_mapDel_self _ _
      · rw [h1]
        unfold abortTool
        rw [show mapGet (mapDel st.activeToolCalls callId) callId = none from
          mapGet_mapDel_self _ _]
  · intro hn
    unfold abortTool
    rw [hn]

/-- C8 (witness): `abortTool_semantics` applied to a state holding one
registered handle. -/
theorem abortTool_semantics_witness :
    (abortTool (cs "c1") ⟨[], [(cs "c1", 0)], 1⟩).1 = true ∧
    (abortTool (cs "c1") (abortTool (cs "c1") ⟨[], [(cs "c1", 0)], 1⟩).2).1 = false ∧
    (abortTool (cs "zz") ⟨[], [(cs "c1", 0)], 1⟩) = (false, ⟨[], [(cs "c1", 0)], 1⟩) :=
  ⟨((abortTool_semantics ⟨[], [(cs "c1", 0)], 1⟩ (cs "c1")).1 (by decide)).1,
   ((abortTool_semantics ⟨[], [(cs "c1", 0)], 1⟩ (cs "c1")).1 (by decide)).2.2,
   (abortTool_semantics ⟨[], [(cs "c1", 0)], 1⟩ (cs "zz")).2 (by decide)⟩

/-- C4: `listTools` maps the wire tool list to descriptors on success
and returns `[]` on any failure — session establishment failure or a
failed/malformed tool-list response — and, being a total function whose
failure branches all land in the catch-all, it never throws. -/
theorem svcListTools_fail_soft (env : MCPEnv) (server : MCPServer) (st : MCPState) :
    (∀ e st', initClient env server st = (Except.error e, st') →
      svcListTools env server st = ([], st')) ∧
    (∀ c st', initClient env server st = (Except.ok c, st') →
      (∀ e, env.listToolsResp c.cid server = Except.error e →
        svcListTools env server st = ([], st')) ∧
      (∀ raws, env.listToolsResp c.cid server = Except.ok raws →
        svcListTools env server st =
          (raws.map (fun t =>
            { id := server.name ++ cs "." ++ t.name
              name := t.name
              description := t.description
              inputSchema := t.inputSchema
              serverId := server.id
              serverName := server.name }), st'))) := by
  constructor
  · intro e st' h
    unfold svcListTools
    rw [h]
  · intro c st' h
    constructor
    · intro e he
      unfold svcListTools
      rw [h]
      dsimp only
      rw [he]
    · intro raws hr
      unfold svcListTools
      rw [h]
      dsimp only
      rw [hr]

/-- C4 (witness): `svcListTools_fail_soft` applied to a server whose
connection fails (empty result) and to a live server listing one tool
(mapped descriptor with the composite id `A.f`). -/
theorem svcListTools_fail_soft_witness :
    svcListTools envMCPFail srvA emptyMCPState = ([], ⟨[], [], 1⟩) ∧
    svcListTools envMCPTools srvA emptyMCPState =
      ([{ id := cs "A.f", name := cs "f", description := none, inputSchema := none
          serverId := cs "a", serverName := cs "A" }],
        ⟨[(getServerKey srvA, ⟨0⟩)], [], 1⟩) :=
  ⟨(svcListTools_fail_soft envMCPFail srvA emptyMCPState).1 (cs "connect error")
      ⟨[], [], 1⟩ rfl,
   by
    have h := ((svcListTools_fail_soft envMCPTools srvA emptyMCPState).2 ⟨0⟩
      ⟨[(getServerKey srvA, ⟨0⟩)], [], 1⟩ rfl).2 [⟨cs "f", none, none⟩] rfl
    rw [h]
    rfl⟩

/-! ### Provider adapters (C5, C7, C10) -/

theorem oaiFold_spec (env : OAIEnv) (tools : List CatalogTool) (servers : List MCPServer) :
    ∀ (tcs : List OAIToolCall) (acc : List ProvToolCall × List ProvEv),
      tcs.foldl
        (fun (acc : List ProvToolCall × List ProvEv) tc =>
          let r := oaiCallStep env tools servers tc
          (acc.1 ++ (match r.1 with | some pr => [pr] | none => []), acc.2 ++ r.2)) acc =
      (acc.1 ++ tcs.filterMap (fun tc => (oaiCallStep env tools servers tc).1),
       acc.2 ++ tcs.flatMap (fun tc => (oaiCallStep env tools servers tc).2)) := by
  intro tcs
  induction tcs with
  | nil => intro acc; simp
  | cons tc rest ih =>
    intro acc
    rw [List.foldl_cons, ih]
    cases h : (oaiCallStep env tools servers tc).1 with
    | none => simp [List.filterMap_cons, h]
    | some pr => simp [List.filterMap_cons, h]

theorem anthFold_spec (env : AnthEnv) (tools : List CatalogTool) (servers : List MCPServer) :
    ∀ (blocks : List AContent) (acc : List Char × List ProvToolCall × List ProvEv),
      blocks.foldl
        (fun (acc : List Char × List ProvToolCall × List ProvEv) c =>
          match c with
          | AContent.text t => (acc.1 ++ t, acc.2.1, acc.2.2)
          | AContent.tool_use aid nm input =>
            let r := anthUseStep env tools servers aid nm input
            (acc.1, acc.2.1 ++ (match r.1 with | some pr => [pr] | none => []), acc.2.2 ++ r.2)) acc =
      (acc.1 ++ textConcat blocks,
       acc.2.1 ++ blocks.filterMap (fun b =>
         match b with
         | AContent.text _ => none
         | AContent.tool_use aid nm input => (anthUseStep env tools servers aid nm input).1),
       acc.2.2 ++ blocks.flatMap (fun b =>
         match b with
         | AContent.text _ => []
         | AContent.tool_use aid nm input => (anthUseStep env tools servers aid nm input).2)) := by
  intro blocks
  induction blocks with
  | nil => intro acc; simp [textConcat]
  | cons b rest ih =>
    intro acc
    rw [List.foldl_cons]
    cases b with
    | text t =>
      rw [ih]
      simp [textConcat, List.filterMap_cons]
    | tool_use aid nm input =>
      rw [ih]
      cases h : (anthUseStep env tools servers aid nm input).1 with
      | none => simp [textConcat, List.filterMap_cons, h]
      | some pr => simp [textConcat, List.filterMap_cons, h]

/-- C7: when the vendor's first-pass response carries zero tool calls,
both native adapters return the first-pass text verbatim (OpenAI:
`message.content`; Anthropic: the concatenated text blocks) with an
empty record list, and the event trace holds exactly one completion
request — no follow-up is issued. -/
theorem native_zero_tool_calls_no_follow_up :
    (∀ (env : OAIEnv) (tools : List CatalogTool) (servers : List MCPServer) (msg : OAIMessage),
      env.firstResp = some msg → msg.tool_calls = [] →
      oaiGenerateWithTools env tools servers =
        ({ success := true, response := some (msg.content.getD []), error := none
           toolCalls := some [] }, [ProvEv.completion])) ∧
    (∀ (env : AnthEnv) (tools : List CatalogTool) (servers : List MCPServer),
      (∀ b ∈ env.firstContent, ∃ t, b = AContent.text t) →
      anthGenerateWithTools env tools servers =
        ({ success := true, response := some (textConcat env.firstContent), error := none
           toolCalls := some [] }, [ProvEv.completion])) := by
  constructor
  · intro env tools servers msg henv htc
    unfold oaiGenerateWithTools
    rw [henv]
    dsimp only
    rw [htc]
    cases msg.content <;> rfl
  · intro env tools servers hall
    unfold anthGenerateWithTools
    rw [anthFold_spec]
    have hfm : env.firstContent.filterMap (fun b =>
        match b with
        | AContent.text _ => none
        | AContent.tool_use aid nm input => (anthUseStep env tools servers aid nm input).1) = [] := by
      rw [List.filterMap_eq_nil_iff]
      intro b hb
      obtain ⟨t, rfl⟩ := hall b hb
      rfl
    have hev : env.firstContent.flatMap (fun b =>
        match b with
        | AContent.text _ => []
        | AContent.tool_use aid nm input => (anthUseStep env tools servers aid nm input).2) = [] := by
      rw [List.flatMap_eq_nil_iff]
      intro b hb
      obtain ⟨t, rfl⟩ := hall b hb
      rfl
    rw [hfm, hev]
    rfl

/-- C7 (witness): `native_zero_tool_calls_no_follow_up` at concrete
no-tool-call responses of both adapters. -/
theorem native_zero_tool_calls_witness :
    oaiGenerateWithTools envOAI0 [] [] =
      ({ success := true, response := some (cs "hello"), error := none, toolCalls := some [] },
        [ProvEv.completion]) ∧
    anthGenerateWithTools envAnth0 [] [] =
      ({ success := true, response := some (cs "hello"), error := none, toolCalls := some [] },
        [ProvEv.completion]) :=
  ⟨native_zero_tool_calls_no_follow_up.1 envOAI0 [] [] ⟨some (cs "hello"), []⟩ rfl rfl,
   by
    have h := native_zero_tool_calls_no_follow_up.2 envAnth0 [] []
      (by
        intro b hb
        replace hb : b ∈ [AContent.text (cs "hel"), AContent.text (cs "lo")] := hb
        rcases List.mem_cons.mp hb with rfl | hb2
        · exact ⟨_, rfl⟩
        · rcases List.mem_cons.mp hb2 with rfl | hb3
          · exact ⟨_, rfl⟩
          · exact absurd hb3 (List.not_mem_nil _))
    rw [h]
    rfl⟩

/-- C5 (counterexample): the vendor's first-pass response requests one
tool call named `nope`; the catalog is empty, so resolution fails — and
the adapter collects no `ToolCallRecord` at all (it silently skips the
call), contradicting "for every tool call ... a ToolCallRecord is
collected, with its error field set when catalog/server resolution ...
fails". -/
theorem oai_resolution_failure_no_record :
    envOAI1.firstResp = some ⟨some (cs "hi"), [⟨cs "call_1", cs "nope", cs "\x7b\x7d"⟩]⟩ ∧
    (jparse (cs "\x7b\x7d")).isSome = true ∧
    (oaiGenerateWithTools envOAI1 [] []).1.success = true ∧
    (oaiGenerateWithTools envOAI1 [] []).1.toolCalls = some [] :=
  ⟨rfl, by decide, rfl, rfl⟩

/-- C5 (amended): in both native adapters the collected records are
exactly the per-call outcomes, one independent outcome per vendor tool
call (so a failure on one call never aborts its siblings): a call whose
arguments parse but whose catalog/server resolution fails contributes
no record (it is silently skipped), a call whose dispatch rejects
contributes a record with `error` set, and a successful call
contributes a full record. -/
theorem native_tool_call_records :
    (∀ (env : OAIEnv) (tools : List CatalogTool) (servers : List MCPServer) (msg : OAIMessage),
      env.firstResp = some msg → msg.tool_calls ≠ [] →
      (oaiGenerateWithTools env tools servers).1.toolCalls =
        some (msg.tool_calls.filterMap (fun tc => (oaiCallStep env tools servers tc).1))) ∧
    (∀ (env : AnthEnv) (tools : List CatalogTool) (servers : List MCPServer),
      (anthGenerateWithTools env tools servers).1.toolCalls =
        some (env.firstContent.filterMap (fun b =>
          match b with
          | AContent.text _ => none
          | AContent.tool_use aid nm input => (anthUseStep env tools servers aid nm input).1))) ∧
    (∀ (env : OAIEnv) (tools : List CatalogTool) (servers : List MCPServer) (tc : OAIToolCall)
      (v : JVal), jparse tc.fargsRaw = some v →
      tools.find? (fun t => t.name == tc.fname) = none →
      oaiCallStep env tools servers tc = (none, [])) ∧
    (∀ (env : OAIEnv) (tools : List CatalogTool) (servers : List MCPServer) (tc : OAIToolCall)
      (v : JVal) (tool : CatalogTool) (srv : MCPServer) (e : List Char),
      jparse tc.fargsRaw = some v →
      tools.find? (fun t => t.name == tc.fname) = some tool →
      servers.find? (fun s => s.id == tool.serverId) = some srv →
      env.callTool srv tc.fname v = Except.error e →
      (oaiCallStep env tools servers tc).1 =
        some { pid := tc.ocid, name := tc.fname, args := none, result := none
               error := some e, serverId := none, serverName := none }) := by
  refine ⟨?_, ?_, ?_, ?_⟩
  · intro env tools servers msg henv htc
    unfold oaiGenerateWithTools
    rw [henv]
    dsimp only
    cases hm : msg.tool_calls with
    | nil => exact absurd hm htc
    | cons tc rest =>
      rw [oaiFold_spec]
      rfl
  · intro env tools servers
    unfold anthGenerateWithTools
    rw [anthFold_spec]
    dsimp only
    split <;> rfl
  · intro env tools servers tc v hparse hfind
    unfold oaiCallStep
    rw [hparse]
    dsimp only
    rw [hfind]
  · intro env tools servers tc v tool srv e hparse hfindT hfindS hcall
    unfold oaiCallStep
    rw [hparse]
    dsimp only
    rw [hfindT]
    dsimp only
    rw [hfindS]
    dsimp only
    rw [hcall]

/-- C5 (witness): the per-call characterization applied to the
`envOAI1` scenario (one unresolvable call, empty record list). -/
theorem native_tool_call_records_witness :
    (oaiGenerateWithTools envOAI1 [] []).1.toolCalls =
      some (([⟨cs "call_1", cs "nope", cs "\x7b\x7d"⟩] : List OAIToolCall).filterMap
        (fun tc => (oaiCallStep envOAI1 [] [] tc).1)) :=
  native_tool_call_records.1 envOAI1 [] []
    ⟨some (cs "hi"), [⟨cs "call_1", cs "nope", cs "\x7b\x7d"⟩]⟩ rfl
    (List.cons_ne_nil _ _)

/-- C10: native tool-call dispatch resolves by bare tool name only: the
catalog entry chosen is the first whose `name` equals the requested
name (the flattened catalog preserves server iteration order, so with
identically-named tools on several servers the earliest server's entry
wins), the invocation goes to the server selected by that entry's
`serverId`, and the catalog entries passed to the adapters carry no
composite identifier at all (see `CatalogTool`/`getAvailableTools`). -/
theorem native_dispatch_by_first_name_match :
    (∀ (listT : MCPServer → List MCPTool) (servers : List MCPServer) (n : List Char),
      ((getAvailableTools listT servers).find? (fun t => t.name == n)).map
          (fun t => t.serverId) =
        (firstServerWithTool listT n servers).map (fun s => s.id)) ∧
    (∀ (env : OAIEnv) (tools : List CatalogTool) (servers : List MCPServer) (tc : OAIToolCall)
      (v : JVal) (tool : CatalogTool) (srv : MCPServer),
      jparse tc.fargsRaw = some v →
      tools.find? (fun t => t.name == tc.fname) = some tool →
      servers.find? (fun s => s.id == tool.serverId) = some srv →
      (oaiCallStep env tools servers tc).2 = [ProvEv.invoke srv.id tc.fname]) ∧
    (∀ (env : AnthEnv) (tools : List CatalogTool) (servers : List MCPServer)
      (aid nm : List Char) (input : JVal) (tool : CatalogTool) (srv : MCPServer),
      tools.find? (fun t => t.name == nm) = some tool →
      servers.find? (fun s => s.id == tool.serverId) = some srv →
      (anthUseStep env tools servers aid nm input).2 = [ProvEv.invoke srv.id nm]) := by
  refine ⟨?_, ?_, ?_⟩
  · intro listT servers n
    induction servers with
    | nil => rfl
    | cons srv rest ih =>
      unfold getAvailableTools at ih ⊢
      rw [List.map_cons, List.flatten_cons, List.find?_append, List.find?_map]
      cases hany : (listT srv).any (fun t => t.name == n) with
      | true =>
        obtain ⟨t0, ht0mem, ht0p⟩ := List.any_eq_true.mp hany
        have hsome : (List.find? ((fun t => t.name == n) ∘ (fun t =>
            ({ name := t.name, description := t.description, inputSchema := t.inputSchema
               serverId := srv.id, serverName := srv.name } : CatalogTool))) (listT srv)).isSome := by
          rw [List.find?_isSome]
          exact ⟨t0, ht0mem, ht0p⟩
        obtain ⟨t1, ht1⟩ := Option.isSome_iff_exists.mp hsome
        rw [ht1]
        unfold firstServerWithTool
        rw [hany]
        rfl
      | false =>
        have hnone : List.find? ((fun t => t.name == n) ∘ (fun t =>
            ({ name := t.name, description := t.description, inputSchema := t.inputSchema
               serverId := srv.id, serverName := srv.name } : CatalogTool))) (listT srv) = none := by
          rw [List.find?_eq_none]
          intro x hx
          have := List.any_eq_false.mp hany x hx
          simpa using this
        rw [hnone]
        unfold firstServerWithTool
        rw [hany]
        simpa using ih
  · intro env tools servers tc v tool srv hparse hfindT hfindS
    unfold oaiCallStep
    rw [hparse]
    dsimp only
    rw [hfindT]
    dsimp only
    rw [hfindS]
    dsimp only
    cases env.callTool srv tc.fname v <;> rfl
  · intro env tools servers aid nm input tool srv hfindT hfindS
    unfold anthUseStep
    rw [hfindT]
    dsimp only
    rw [hfindS]
    dsimp only
    cases env.callTool srv nm input <;> rfl

/-- C10 (witness): with servers `a` and `b` both exposing `search`, the
catalog's first `search` entry carries `serverId = a`, and a native
`search` call is dispatched to server `a`. -/
theorem native_dispatch_first_witness :
    ((getAvailableTools listBoth [srvA, srvB]).find? (fun t => t.name == cs "search")).map
        (fun t => t.serverId) = some (cs "a") ∧
    (oaiCallStep envOAI2 (getAvailableTools listBoth [srvA, srvB]) [srvA, srvB]
        ⟨cs "call_2", cs "search", cs "\x7b\x7d"⟩).2 =
      [ProvEv.invoke (cs "a") (cs "search")] := by
  constructor
  · rw [native_dispatch_by_first_name_match.1 listBoth [srvA, srvB] (cs "search")]
    rfl
  · exact native_dispatch_by_first_name_match.2.1 envOAI2
      (getAvailableTools listBoth [srvA, srvB]) [srvA, srvB]
      ⟨cs "call_2", cs "search", cs "\x7b\x7d"⟩ (JVal.jo [])
      { name := cs "search", description := none, inputSchema := none
        serverId := cs "a", serverName := cs "A" } srvA rfl rfl rfl

/-! ### String-occurrence lemmas for the normalizer -/

theorem hasPref_iff_take (p : List Char) : ∀ s : List Char,
    hasPref p s = true ↔ s.take p.length = p := by
  induction p with
  | nil => intro s; simp [hasPref]
  | cons a ps ih =>
    intro s
    cases s with
    | nil => simp [hasPref]
    | cons c csl =>
      simp only [hasPref, List.length_cons, List.take_succ_cons, List.cons.injEq,
        Bool.and_eq_true, beq_iff_eq]
      rw [ih csl]
      constructor
      · rintro ⟨h1, h2⟩; exact ⟨h1.symm, h2⟩
      · rintro ⟨h1, h2⟩; exact ⟨h1.symm, h2⟩

theorem hasPref_length_le {p s : List Char} (h : hasPref p s = true) : p.length ≤ s.length := by
  rw [hasPref_iff_take] at h
  have := congrArg List.length h
  rw [List.length_take] at this
  omega

theorem hasPref_decomp {p s : List Char} (h : hasPref p s = true) :
    s = p ++ s.drop p.length := by
  conv_lhs => rw [← List.take_append_drop p.length s]
  rw [(hasPref_iff_take p s).mp h]

theorem hasPref_self_append (p t : List Char) : hasPref p (p ++ t) = true := by
  rw [hasPref_iff_take, List.take_left]

theorem hasPref_trans {op pat u : List Char} (h1 : hasPref op pat = true)
    (h2 : hasPref pat u = true) : hasPref op u = true := by
  have hle : op.length ≤ pat.length := hasPref_length_le h1
  rw [hasPref_iff_take] at h1 h2 ⊢
  calc u.take op.length = (u.take pat.length).take op.length := by
        rw [List.take_take, Nat.min_eq_left hle]
    _ = pat.take op.length := by rw [h2]
    _ = op := h1

theorem hasPref_getElem {p u : List Char} (h : hasPref p u = true) :
    ∀ k, k < p.length → u[k]? = p[k]? := by
  intro k hk
  rw [hasPref_iff_take] at h
  conv_rhs => rw [← h]
  rw [List.getElem?_take, if_pos hk]

theorem firstIdx_occurs (pat : List Char) : ∀ (s : List Char) (i : Nat),
    firstIdx pat s = some i → occursAt pat s i = true := by
  intro s
  induction s with
  | nil =>
    intro i h
    unfold firstIdx at h
    split at h
    · next hp =>
      cases h
      exact hp
    · cases h
  | cons c csl ih =>
    intro i h
    unfold firstIdx at h
    split at h
    · next hp =>
      cases h
      exact hp
    · cases hrec : firstIdx pat csl with
      | none => rw [hrec] at h; cases h
      | some j =>
        rw [hrec] at h
        cases h
        have := ih j hrec
        unfold occursAt at this ⊢
        simpa [List.drop_succ_cons] using this

theorem firstIdx_minimal (pat : List Char) : ∀ (s : List Char) (i : Nat),
    firstIdx pat s = some i → ∀ j, j < i → occursAt pat s j = false := by
  intro s
  induction s with
  | nil =>
    intro i h j hj
    unfold firstIdx at h
    split at h
    · cases h; omega
    · cases h
  | cons c csl ih =>
    intro i h j hj
    unfold firstIdx at h
    split at h
    · cases h; omega
    · next hp =>
      cases hrec : firstIdx pat csl with
      | none => rw [hrec] at h; cases h
      | some i' =>
        rw [hrec] at h
        simp only [Option.map_some', Option.some.injEq] at h
        subst h
        cases j with
        | zero =>
          unfold occursAt
          simpa using hp
        | succ j' =>
          have := ih i' hrec j' (by omega)
          unfold occursAt at this ⊢
          simpa [List.drop_succ_cons] using this

theorem occurs_firstIdx (pat : List Char) : ∀ (s : List Char) (j : Nat),
    occursAt pat s j = true → ∃ i, firstIdx pat s = some i ∧ i ≤ j := by
  intro s
  induction s with
  | nil =>
    intro j h
    unfold occursAt at h
    rw [List.drop_nil] at h
    exact ⟨0, by unfold firstIdx; rw [if_pos h], by omega⟩
  | cons c csl ih =>
    intro j h
    by_cases hp : hasPref pat (c :: csl) = true
    · exact ⟨0, by unfold firstIdx; rw [if_pos hp], by omega⟩
    · cases j with
      | zero =>
        unfold occursAt at h
        simp only [List.drop_zero] at h
        exact absurd h hp
      | succ j' =>
        have h' : occursAt pat csl j' = true := by
          unfold occursAt at h ⊢
          simpa [List.drop_succ_cons] using h
        obtain ⟨i', hi', hle⟩ := ih j' h'
        refine ⟨i' + 1, ?_, by omega⟩
        unfold firstIdx
        rw [if_neg (by simpa using hp), hi']
        rfl

theorem containsSub_of_occurs {pat s : List Char} {j : Nat}
    (h : occursAt pat s j = true) : containsSub pat s = true := by
  obtain ⟨i, hi, _⟩ := occurs_firstIdx pat s j h
  unfold containsSub
  rw [hi]
  rfl

theorem replaceFirst_exact (pat rep P T : List Char)
    (h : ∀ j, j < P.length → occursAt pat (P ++ pat ++ T) j = false) :
    replaceFirst pat rep (P ++ pat ++ T) = P ++ rep ++ T := by
  have hocc : occursAt pat (P ++ pat ++ T) P.length = true := by
    unfold occursAt
    rw [List.append_assoc, List.drop_left]
    exact hasPref_self_append pat T
  obtain ⟨i, hi, hle⟩ := occurs_firstIdx pat _ _ hocc
  have hieq : i = P.length := by
    rcases Nat.lt_or_ge i P.length with hlt | hge
    · exact absurd (firstIdx_occurs pat _ i hi) (by rw [h i hlt]; simp)
    · omega
  subst hieq
  unfold replaceFirst
  rw [hi]
  dsimp only
  have hd : List.drop (P.length + pat.length) (P ++ pat ++ T) = T := by
    have hl : P.length + pat.length = (P ++ pat).length := (List.length_append _ _).symm
    rw [hl, List.drop_left]
  have ht : List.take P.length (P ++ pat ++ T) = P := by
    rw [List.append_assoc]
    exact List.take_left _ _
  rw [ht, hd]

/-- The `<` character occurs in `<tool_call>` only at position 0, so a
span (which starts with the open tag) can never begin strictly inside
the already-substituted prefix and straddle into its own canonical
occurrence; combined with the prefix containing no open tag at all,
first-occurrence replacement hits the canonical span. -/
theorem no_early_occur (sp P T : List Char) (hsp : hasPref openCallTag sp = true)
    (hP : containsSub openCallTag P = false) :
    ∀ j, j < P.length → occursAt sp (P ++ sp ++ T) j = false := by
  intro j hj
  by_contra hocc
  rw [Bool.not_eq_false] at hocc
  unfold occursAt at hocc
  have hop : hasPref openCallTag ((P ++ sp ++ T).drop j) = true := hasPref_trans hsp hocc
  rcases Nat.lt_or_ge P.length (j + openCallTag.length) with hcase | hcase
  · -- straddle case
    have hk1 : 0 < P.length - j := by omega
    have hk2 : P.length - j < openCallTag.length := by omega
    have hget := hasPref_getElem hop (P.length - j) hk2
    rw [List.getElem?_drop] at hget
    have hidx : j + (P.length - j) = P.length := by omega
    rw [hidx] at hget
    have hsplen : 0 < sp.length := by
      have h1 := hasPref_length_le hsp
      have h2 : 0 < openCallTag.length := by decide
      omega
    have hPelem : (P ++ sp ++ T)[P.length]? = sp[0]? := by
      rw [List.append_assoc, List.getElem?_append_right (Nat.le_refl _), Nat.sub_self]
      exact List.getElem?_append_left hsplen
    rw [hPelem] at hget
    have hsp0 : sp[0]? = some '<' := by
      rw [hasPref_getElem hsp 0 (by decide)]
      decide
    rw [hsp0] at hget
    have hno : ∀ k, k < openCallTag.length → 0 < k → ¬ (openCallTag[k]? = some '<') := by
      decide
    exact hno _ hk2 hk1 hget.symm
  · -- occurrence confined to the prefix
    have hdrop : (P ++ sp ++ T).drop j = P.drop j ++ (sp ++ T) := by
      rw [List.append_assoc, List.drop_append_eq_append_drop]
      have hz : j - P.length = 0 := by omega
      rw [hz, List.drop_zero]
    have hpref_inside : hasPref openCallTag (P.drop j) = true := by
      rw [hdrop] at hop
      rw [hasPref_iff_take] at hop ⊢
      rw [List.take_append_eq_append_take] at hop
      have hlen : openCallTag.length ≤ (P.drop j).length := by
        rw [List.length_drop]
        omega
      have hz : openCallTag.length - (P.drop j).length = 0 := by omega
      rw [hz, List.take_zero, List.append_nil] at hop
      exact hop
    have hcont : containsSub openCallTag P = true :=
      containsSub_of_occurs (j := j) (by unfold occursAt; exact hpref_inside)
    rw [hP] at hcont
    cases hcont

theorem splitSpansF_map (o c : List Char) : ∀ (f : Nat) (s : List Char),
    (splitSpansF o c f s).1.map (fun p => p.2) = matchSpansF o c f s := by
  intro f
  induction f with
  | zero => intro s; rfl
  | succ f ih =>
    intro s
    cases h1 : firstIdx o s with
    | none => simp only [splitSpansF, matchSpansF, h1]; rfl
    | some i =>
      simp only [splitSpansF, matchSpansF, h1]
      cases h2 : firstIdx c (s.drop (i + o.length)) with
      | none => rfl
      | some k =>
        rw [List.map_cons, ih]

theorem splitSpansF_join (o c : List Char) : ∀ (f : Nat) (s : List Char),
    joinSegs (splitSpansF o c f s).1 (splitSpansF o c f s).2 = s := by
  intro f
  induction f with
  | zero => intro s; rfl
  | succ f ih =>
    intro s
    cases h1 : firstIdx o s with
    | none => simp only [splitSpansF, h1]; rfl
    | some i =>
      simp only [splitSpansF, h1]
      cases h2 : firstIdx c (s.drop (i + o.length)) with
      | none => rfl
      | some k =>
        unfold joinSegs
        rw [ih]
        have hso : s.drop i = o ++ s.drop (i + o.length) := by
          have hd := hasPref_decomp (firstIdx_occurs o s i h1)
          rwa [List.drop_drop] at hd
        have h5 : ((List.drop (i + o.length) s).drop k).drop c.length =
            (List.drop (i + o.length) s).drop (k + c.length) := by
          rw [List.drop_drop]
        have h4 : (List.drop (i + o.length) s).drop k =
            c ++ (List.drop (i + o.length) s).drop (k + c.length) := by
          have hd := hasPref_decomp (firstIdx_occurs c (List.drop (i + o.length) s) k h2)
          rw [h5] at hd
          exact hd
        have hA : List.drop (i + o.length) s =
            (List.drop (i + o.length) s).take k ++
              (c ++ (List.drop (i + o.length) s).drop (k + c.length)) := by
          conv_lhs => rw [← List.take_append_drop k (List.drop (i + o.length) s)]
          rw [h4]
        conv_rhs => rw [← List.take_append_drop i s, hso, hA]
        simp [List.append_assoc]

theorem matchSpansF_form (o c : List Char) : ∀ (f : Nat) (s m : List Char),
    m ∈ matchSpansF o c f s → hasPref o m = true := by
  intro f
  induction f with
  | zero => intro s m h; cases h
  | succ f ih =>
    intro s m h
    rw [matchSpansF] at h
    cases h1 : firstIdx o s with
    | none => rw [h1] at h; cases h
    | some i =>
      rw [h1] at h
      dsimp only at h
      cases h2 : firstIdx c (s.drop (i + o.length)) with
      | none => rw [h2] at h; cases h
      | some k =>
        rw [h2] at h
        dsimp only at h
        rcases List.mem_cons.mp h with rfl | hmem
        · rw [List.append_assoc]
          exact hasPref_self_append _ _
        · exact ih _ _ hmem

theorem jsonFold_components (env : PEnv) (servers : List MCPServer) :
    ∀ (ms : List (List Char)) (st : PState),
      (ms.foldl (jsonStep env servers) st).calls = st.calls ++ (jrun env servers ms st.ctr).1 ∧
      (ms.foldl (jsonStep env servers) st).trace =
        st.trace ++ (jrun env servers ms st.ctr).2.1 ∧
      (ms.foldl (jsonStep env servers) st).ctr = (jrun env servers ms st.ctr).2.2 := by
  intro ms
  induction ms with
  | nil => intro st; simp [jrun]
  | cons m rest ih =>
    intro st
    rw [List.foldl_cons]
    cases hp : processJsonToolCall env m servers st.ctr with
    | mk r evs =>
      cases r with
      | ok pr =>
        obtain ⟨tc, repl⟩ := pr
        have hstep : jsonStep env servers st m =
            { text := replaceFirst m repl st.text, calls := st.calls ++ [tc]
              trace := st.trace ++ evs, ctr := st.ctr + 1 } := by
          unfold jsonStep
          rw [hp]
        rw [hstep]
        obtain ⟨h1, h2, h3⟩ := ih { text := replaceFirst m repl st.text
                                    calls := st.calls ++ [tc]
                                    trace := st.trace ++ evs, ctr := st.ctr + 1 }
        refine ⟨?_, ?_, ?_⟩
        · rw [h1]
          simp only [jrun, hp, List.append_assoc, List.cons_append, List.nil_append]
        · rw [h2]
          simp only [jrun, hp, List.append_assoc]
        · rw [h3]
          simp only [jrun, hp]
      | error msg =>
        have hstep : jsonStep env servers st m =
            { text := replaceFirst m (errOpenTag ++ msg ++ errCloseTag) st.text
              calls := st.calls, trace := st.trace ++ evs, ctr := st.ctr } := by
          unfold jsonStep
          rw [hp]
        rw [hstep]
        obtain ⟨h1, h2, h3⟩ := ih { text := replaceFirst m (errOpenTag ++ msg ++ errCloseTag) st.text
                                    calls := st.calls, trace := st.trace ++ evs, ctr := st.ctr }
        refine ⟨?_, ?_, ?_⟩
        · rw [h1]
          simp only [jrun, hp]
        · rw [h2]
          simp only [jrun, hp, List.append_assoc]
        · rw [h3]
          simp only [jrun, hp]

theorem codeFold_components (env : PEnv) (servers : List MCPServer) :
    ∀ (ms : List (List Char)) (st : PState),
      (ms.foldl (codeStep env servers) st).calls = st.calls ++ (crun env servers ms st.ctr).1 ∧
      (ms.foldl (codeStep env servers) st).trace =
        st.trace ++ (crun env servers ms st.ctr).2.1 ∧
      (ms.foldl (codeStep env servers) st).ctr = (crun env servers ms st.ctr).2.2 := by
  intro ms
  induction ms with
  | nil => intro st; simp [crun]
  | cons m rest ih =>
    intro st
    rw [List.foldl_cons]
    cases hp : processCodeToolCall env m servers st.ctr with
    | mk r evs =>
      cases r with
      | ok pr =>
        obtain ⟨tc, repl⟩ := pr
        have hstep : codeStep env servers st m =
            { text := replaceFirst m repl st.text, calls := st.calls ++ [tc]
              trace := st.trace ++ evs, ctr := st.ctr + 1 } := by
          unfold codeStep
          rw [hp]
        rw [hstep]
        obtain ⟨h1, h2, h3⟩ := ih { text := replaceFirst m repl st.text
                                    calls := st.calls ++ [tc]
                                    trace := st.trace ++ evs, ctr := st.ctr + 1 }
        refine ⟨?_, ?_, ?_⟩
        · rw [h1]
          simp only [crun, hp, List.append_assoc, List.cons_append, List.nil_append]
        · rw [h2]
          simp only [crun, hp, List.append_assoc]
        · rw [h3]
          simp only [crun, hp]
      | error msg =>
        have hstep : codeStep env servers st m =
            { text := replaceFirst m (errOpenTag ++ msg ++ errCloseTag) st.text
              calls := st.calls, trace := st.trace ++ evs, ctr := st.ctr } := by
          unfold codeStep
          rw [hp]
        rw [hstep]
        obtain ⟨h1, h2, h3⟩ := ih { text := replaceFirst m (errOpenTag ++ msg ++ errCloseTag) st.text
                                    calls := st.calls, trace := st.trace ++ evs, ctr := st.ctr }
        refine ⟨?_, ?_, ?_⟩
        · rw [h1]
          simp only [crun, hp]
        · rw [h2]
          simp only [crun, hp, List.append_assoc]
        · rw [h3]
          simp only [crun, hp]

theorem jsonPhase_spec (env : PEnv) (servers : List MCPServer) :
    ∀ (segs : List (List Char × List Char)) (fin D : List Char)
      (calls : List ToolCall) (trace : List PEv) (n : Nat),
      (∀ p ∈ segs, hasPref openCallTag p.2 = true) →
      FreshRun env servers D segs n →
      (segs.map (fun p => p.2)).foldl (jsonStep env servers)
          ⟨D ++ joinSegs segs fin, calls, trace, n⟩ =
        ⟨D ++ (expRun env servers segs n).1 ++ fin,
         calls ++ (expRun env servers segs n).2.1,
         trace ++ (expRun env servers segs n).2.2.1,
         (expRun env servers segs n).2.2.2⟩ := by
  intro segs
  induction segs with
  | nil =>
    intro fin D calls trace n hform hfresh
    simp [expRun, joinSegs]
  | cons p rest ih =>
    obtain ⟨g, sp⟩ := p
    intro fin D calls trace n hform hfresh
    cases hfresh with
    | cons _ _ _ _ _ hhead htail =>
      have hsp : hasPref openCallTag sp = true := hform (g, sp) (List.mem_cons_self _ _)
      have hformRest : ∀ p ∈ rest, hasPref openCallTag p.2 = true :=
        fun p hp => hform p (List.mem_cons_of_mem _ hp)
      have hcons : joinSegs ((g, sp) :: rest) fin = g ++ sp ++ joinSegs rest fin := rfl
      rw [List.map_cons, List.foldl_cons]
      cases hp : processJsonToolCall env sp servers n with
      | mk r evs =>
        cases r with
        | ok pr =>
          obtain ⟨tc, repl⟩ := pr
          have htext : replaceFirst sp repl (D ++ joinSegs ((g, sp) :: rest) fin) =
              (D ++ g ++ repl) ++ joinSegs rest fin := by
            have hjoin : D ++ joinSegs ((g, sp) :: rest) fin =
                (D ++ g) ++ sp ++ joinSegs rest fin := by
              rw [hcons]
              simp [List.append_assoc]
            rw [hjoin,
              replaceFirst_exact sp repl (D ++ g) (joinSegs rest fin)
                (no_early_occur sp (D ++ g) (joinSegs rest fin) hsp hhead),
              List.append_assoc]
          have hstep : jsonStep env servers
              ⟨D ++ joinSegs ((g, sp) :: rest) fin, calls, trace, n⟩ sp =
              { text := (D ++ g ++ repl) ++ joinSegs rest fin, calls := calls ++ [tc]
                trace := trace ++ evs, ctr := n + 1 } := by
            unfold jsonStep
            dsimp only
            rw [hp]
            dsimp only
            rw [htext]
          rw [hstep]
          rw [hp] at htail
          simp only [stepRepl, stepInc] at htail
          have hih := ih fin (D ++ g ++ repl) (calls ++ [tc]) (trace ++ evs) (n + 1)
            hformRest htail
          rw [hih]
          simp only [expRun, hp]
          simp [PState.mk.injEq, List.append_assoc]
        | error msg =>
          have htext : replaceFirst sp (errOpenTag ++ msg ++ errCloseTag)
              (D ++ joinSegs ((g, sp) :: rest) fin) =
              (D ++ g ++ (errOpenTag ++ msg ++ errCloseTag)) ++ joinSegs rest fin := by
            have hjoin : D ++ joinSegs ((g, sp) :: rest) fin =
                (D ++ g) ++ sp ++ joinSegs rest fin := by
              rw [hcons]
              simp [List.append_assoc]
            rw [hjoin,
              replaceFirst_exact sp (errOpenTag ++ msg ++ errCloseTag) (D ++ g)
                (joinSegs rest fin)
                (no_early_occur sp (D ++ g) (joinSegs rest fin) hsp hhead),
              List.append_assoc]
          have hstep : jsonStep env servers
              ⟨D ++ joinSegs ((g, sp) :: rest) fin, calls, trace, n⟩ sp =
              { text := (D ++ g ++ (errOpenTag ++ msg ++ errCloseTag)) ++ joinSegs rest fin
                calls := calls, trace := trace ++ evs, ctr := n } := by
            unfold jsonStep
            dsimp only
            rw [hp]
            dsimp only
            rw [htext]
          rw [hstep]
          rw [hp] at htail
          simp only [stepRepl, stepInc, Nat.add_zero] at htail
          have hih := ih fin (D ++ g ++ (errOpenTag ++ msg ++ errCloseTag)) calls
            (trace ++ evs) n hformRest htail
          rw [hih]
          simp only [expRun, hp]
          simp [PState.mk.injEq, List.append_assoc]

/-- C9 (counterexample): in `respMix` a `<tool_code>` span precedes a
`<tool_call>` span in the text, yet the normalizer dispatches the
`<tool_call>` span's invocation (to server `b`) before the
`<tool_code>` span's (to server `a`): spans are not processed in
textual order across the two formats. -/
theorem processToolCalls_batches_not_textual_order :
    (firstIdx openCodeTag respMix).getD 999 < (firstIdx openCallTag respMix).getD 0 ∧
    (matchSpans openCodeTag closeCodeTag respMix).length = 1 ∧
    (matchSpans openCallTag closeCallTag respMix).length = 1 ∧
    (processToolCalls envOk respMix [srvA, srvB]).trace.map evServer =
      [cs "b", cs "a"] := by
  refine ⟨by decide, by decide, by decide, by decide⟩

/-- C9 (amended): the normalizer processes the two span kinds in two
batches — first every `<tool_call>` match, then every `<tool_code>`
match — each batch in match-list order; the dispatch trace is the
concatenation of the two batch traces. Within each kind the match list
is in textual order: the response decomposes as the in-order
interleaving of the gaps and spans returned by `splitSpans`, whose
spans are exactly the match list. -/
theorem processToolCalls_phase_order (env : PEnv) (servers : List MCPServer)
    (response : List Char) :
    (processToolCalls env response servers).trace =
      (jrun env servers (matchSpans openCallTag closeCallTag response) 0).2.1 ++
      (crun env servers (matchSpans openCodeTag closeCodeTag response)
        (jrun env servers (matchSpans openCallTag closeCallTag response) 0).2.2).2.1 ∧
    joinSegs (splitSpans openCallTag closeCallTag response).1
        (splitSpans openCallTag closeCallTag response).2 = response ∧
    (splitSpans openCallTag closeCallTag response).1.map (fun p => p.2) =
      matchSpans openCallTag closeCallTag response ∧
    joinSegs (splitSpans openCodeTag closeCodeTag response).1
        (splitSpans openCodeTag closeCodeTag response).2 = response ∧
    (splitSpans openCodeTag closeCodeTag response).1.map (fun p => p.2) =
      matchSpans openCodeTag closeCodeTag response := by
  refine ⟨?_, splitSpansF_join _ _ _ _, splitSpansF_map _ _ _ _,
    splitSpansF_join _ _ _ _, splitSpansF_map _ _ _ _⟩
  unfold processToolCalls
  obtain ⟨_, ht1, hr1⟩ := jsonFold_components env servers
    (matchSpans openCallTag closeCallTag response) ⟨response, [], [], 0⟩
  obtain ⟨_, ht2, _⟩ := codeFold_components env servers
    (matchSpans openCodeTag closeCodeTag response)
    ((matchSpans openCallTag closeCallTag response).foldl (jsonStep env servers)
      ⟨response, [], [], 0⟩)
  rw [ht2, ht1, hr1]
  simp

/-- C6 (counterexample): on `spanC6`'s body the direct parse fails; the
code's actual fallback (greedy first-brace-to-last-brace) also fails,
so the span is replaced by an error marker with no record — while the
claimed strategy, parsing the FIRST BALANCED brace group, succeeds and
(the JSON naming relevant server `a`) would have produced a successful
substitution. The fallback is therefore not "the first balanced {...}
substring". -/
theorem processJsonToolCall_greedy_not_balanced :
    (jparse (jsTrim (removeTags openCallTag closeCallTag spanC6))).isNone = true ∧
    (extractFirstBalanced (jsTrim (removeTags openCallTag closeCallTag spanC6))).isSome
      = true ∧
    (jparse ((extractFirstBalanced
      (jsTrim (removeTags openCallTag closeCallTag spanC6))).getD [])).isSome = true ∧
    stepOk (processJsonToolCall envOk spanC6 [srvA] 0).1 = false ∧
    stepOk (handleParsed envOk
      ((jparse ((extractFirstBalanced
        (jsTrim (removeTags openCallTag closeCallTag spanC6))).getD [])).getD JVal.jnull)
      [srvA] 0).1 = true := by
  refine ⟨by decide, by decide, by decide, by decide, by decide⟩

/-- C6 (amended): for each `<tool_call>` span the normalizer first
attempts a direct JSON parse of the stripped, trimmed span body; on
failure it falls back to the greedy substring from the first opening
brace to the last closing brace (not the first balanced group) and
parses that; if both attempts fail the span alone is replaced by an
error marker (`<tool_error>`), and the outcome of each span does not
disturb the records of the remaining spans. -/
theorem processJsonToolCall_parse_strategy :
    (∀ (env : PEnv) (m : List Char) (servers : List MCPServer) (n : Nat) (v : JVal),
      jparse (jsTrim (removeTags openCallTag closeCallTag m)) = some v →
      processJsonToolCall env m servers n = handleParsed env v servers n) ∧
    (∀ (env : PEnv) (m : List Char) (servers : List MCPServer) (n : Nat) (v : JVal)
      (sub : List Char),
      jparse (jsTrim (removeTags openCallTag closeCallTag m)) = none →
      greedyBrace (jsTrim (removeTags openCallTag closeCallTag m)) = some sub →
      jparse sub = some v →
      processJsonToolCall env m servers n = handleParsed env v servers n) ∧
    (∀ (env : PEnv) (m : List Char) (servers : List MCPServer) (n : Nat) (sub : List Char),
      jparse (jsTrim (removeTags openCallTag closeCallTag m)) = none →
      greedyBrace (jsTrim (removeTags openCallTag closeCallTag m)) = some sub →
      jparse sub = none →
      processJsonToolCall env m servers n = (Except.error (env.jsonErrMsg sub), [])) ∧
    (∀ (env : PEnv) (m : List Char) (servers : List MCPServer) (n : Nat),
      jparse (jsTrim (removeTags openCallTag closeCallTag m)) = none →
      greedyBrace (jsTrim (removeTags openCallTag closeCallTag m)) = none →
      processJsonToolCall env m servers n =
        (Except.error (cs "No valid JSON found in tool call data: " ++
          (jsTrim (removeTags openCallTag closeCallTag m)).take 100 ++ cs "..."), [])) ∧
    (∀ (env : PEnv) (servers : List MCPServer) (g sp : List Char)
      (rest : List (List Char × List Char)) (n : Nat) (msg : List Char) (evs : List PEv),
      processJsonToolCall env sp servers n = (Except.error msg, evs) →
      (expRun env servers ((g, sp) :: rest) n).2.1 = (expRun env servers rest n).2.1) := by
  refine ⟨?_, ?_, ?_, ?_, ?_⟩
  · intro env m servers n v h
    unfold processJsonToolCall
    dsimp only
    rw [h]
  · intro env m servers n v sub h1 h2 h3
    unfold processJsonToolCall
    dsimp only
    rw [h1]
    dsimp only
    rw [h2]
    dsimp only
    rw [h3]
  · intro env m servers n sub h1 h2 h3
    unfold processJsonToolCall
    dsimp only
    rw [h1]
    dsimp only
    rw [h2]
    dsimp only
    rw [h3]
  · intro env m servers n h1 h2
    unfold processJsonToolCall
    dsimp only
    rw [h1]
    dsimp only
    rw [h2]
  · intro env servers g sp rest n msg evs h
    simp only [expRun, h]

/-- C6 (witness): the three branches of
`processJsonToolCall_parse_strategy` at concrete spans: a direct
parse (`respA`'s span), a successful greedy fallback (`spanG`), and a
double failure replaced by an error marker (`spanC6`). -/
theorem processJsonToolCall_parse_strategy_witness :
    processJsonToolCall envOk spanG [srvA] 0 =
      handleParsed envOk
        (JVal.jo [(cs "serverId", JVal.js (cs "a")), (cs "name", JVal.js (cs "t")),
          (cs "args", JVal.jn (cs "3"))]) [srvA] 0 ∧
    processJsonToolCall envOk spanC6 [srvA] 0 =
      (Except.error (envOk.jsonErrMsg
        (cs "\x7b\"serverId\":\"a\",\"name\":\"t\",\"args\":\x7b\x7d\x7d \x7b\"x\":1\x7d")), []) :=
  ⟨processJsonToolCall_parse_strategy.2.1 envOk spanG [srvA] 0
      (JVal.jo [(cs "serverId", JVal.js (cs "a")), (cs "name", JVal.js (cs "t")),
        (cs "args", JVal.jn (cs "3"))])
      (cs "\x7b\"serverId\":\"a\",\"name\":\"t\",\"args\":3\x7d") rfl rfl rfl,
   processJsonToolCall_parse_strategy.2.2.1 envOk spanC6 [srvA] 0
      (cs "\x7b\"serverId\":\"a\",\"name\":\"t\",\"args\":\x7b\x7d\x7d \x7b\"x\":1\x7d")
      rfl rfl rfl⟩

theorem handleParsed_ok_irrel (env : PEnv) (v : JVal) (servers : List MCPServer) (n m : Nat) :
    stepOk (handleParsed env v servers n).1 = stepOk (handleParsed env v servers m).1 := by
  unfold handleParsed
  cases v
  case jnull => rfl
  all_goals
    dsimp only
    split
    · rfl
    · split <;> rfl

theorem processJson_ok_irrel (env : PEnv) (sp : List Char) (servers : List MCPServer)
    (n : Nat) :
    stepOk (processJsonToolCall env sp servers n).1 =
      stepOk (processJsonToolCall env sp servers 0).1 := by
  unfold processJsonToolCall
  dsimp only
  cases jparse (jsTrim (removeTags openCallTag closeCallTag sp)) with
  | some v => exact handleParsed_ok_irrel env v servers n 0
  | none =>
    dsimp only
    cases greedyBrace (jsTrim (removeTags openCallTag closeCallTag sp)) with
    | none => rfl
    | some sub =>
      dsimp only
      cases jparse sub with
      | some v => exact handleParsed_ok_irrel env v servers n 0
      | none => rfl

theorem expRun_records_length (env : PEnv) (servers : List MCPServer) :
    ∀ (segs : List (List Char × List Char)) (n : Nat),
      (expRun env servers segs n).2.1.length =
        segs.countP (fun p => stepOk (processJsonToolCall env p.2 servers 0).1) := by
  intro segs
  induction segs with
  | nil => intro n; simp [expRun]
  | cons p rest ih =>
    obtain ⟨g, sp⟩ := p
    intro n
    cases hp : processJsonToolCall env sp servers n with
    | mk r evs =>
      cases r with
      | ok pr =>
        obtain ⟨tc, repl⟩ := pr
        have hok : stepOk (processJsonToolCall env sp servers 0).1 = true := by
          rw [← processJson_ok_irrel env sp servers n, hp]
          rfl
        simp only [expRun, hp, List.countP_cons, List.length_cons]
        rw [ih (n + 1)]
        simp [hok]
      | error msg =>
        have hok : stepOk (processJsonToolCall env sp servers 0).1 = false := by
          rw [← processJson_ok_irrel env sp servers n, hp]
          rfl
        simp only [expRun, hp, List.countP_cons]
        rw [ih n]
        simp [hok]

/-- C1 (counterexample): `respA` holds exactly one `<tool_call>` span
with syntactically valid JSON naming the relevant server `a`, but the
dispatch rejects ("boom"): the normalizer then replaces the span with a
`<tool_error>` marker and accumulates NO `ToolCallRecord` — not
"exactly one ToolCallRecord per structured span". -/
theorem processToolCalls_failed_call_no_record :
    (matchSpans openCallTag closeCallTag respA).length = 1 ∧
    jsGet ((jparse (jsTrim (removeTags openCallTag closeCallTag
        (cs "<tool_call>\x7b\"serverId\":\"a\",\"name\":\"t\",\"args\":1\x7d</tool_call>")))).getD
        JVal.jnull)
      (cs "serverId") = some (JVal.js (cs "a")) ∧
    srvA.id = cs "a" ∧
    (processToolCalls envFail respA [srvA]).calls = [] ∧
    (processToolCalls envFail respA [srvA]).text =
      cs "hi <tool_error>boom</tool_error> bye" :=
  ⟨by decide, rfl, rfl, rfl, by decide⟩

/-- C1 (amended): for a response without `<tool_code>` spans, and
provided no substituted marker re-introduces a `<tool_call>` open tag
ahead of an unprocessed span (`FreshRun` — error messages can violate
this, since a span's `serverId` string is interpolated into the
`<tool_error>` marker), the normalizer substitutes each span in place —
the output interleaves the unchanged gaps with the per-span markers
(`<tool_result>` on success, `<tool_error>` on failure), so removing
the spans from the input and the substituted markers from the output
leaves the same surrounding text — and accumulates exactly one
`ToolCallRecord` per span whose dispatch succeeds; failed spans
contribute an error marker and no record. -/
theorem processToolCalls_span_substitution (env : PEnv) (servers : List MCPServer)
    (response : List Char)
    (hcode : matchSpans openCodeTag closeCodeTag response = [])
    (hfresh : FreshRun env servers [] (splitSpans openCallTag closeCallTag response).1 0) :
    processToolCalls env response servers =
      ⟨(expRun env servers (splitSpans openCallTag closeCallTag response).1 0).1 ++
         (splitSpans openCallTag closeCallTag response).2,
       (expRun env servers (splitSpans openCallTag closeCallTag response).1 0).2.1,
       (expRun env servers (splitSpans openCallTag closeCallTag response).1 0).2.2.1,
       (expRun env servers (splitSpans openCallTag closeCallTag response).1 0).2.2.2⟩ ∧
    response = joinSegs (splitSpans openCallTag closeCallTag response).1
      (splitSpans openCallTag closeCallTag response).2 ∧
    (expRun env servers (splitSpans openCallTag closeCallTag response).1 0).2.1.length =
      (splitSpans openCallTag closeCallTag response).1.countP
        (fun p => stepOk (processJsonToolCall env p.2 servers 0).1) := by
  have hjoin : joinSegs (splitSpans openCallTag closeCallTag response).1
      (splitSpans openCallTag closeCallTag response).2 = response :=
    splitSpansF_join _ _ _ _
  have hmap : (splitSpans openCallTag closeCallTag response).1.map (fun p => p.2) =
      matchSpans openCallTag closeCallTag response :=
    splitSpansF_map _ _ _ _
  have hform : ∀ p ∈ (splitSpans openCallTag closeCallTag response).1,
      hasPref openCallTag p.2 = true := by
    intro p hp
    apply matchSpansF_form openCallTag closeCallTag response.length response
    have : p.2 ∈ (splitSpans openCallTag closeCallTag response).1.map (fun p => p.2) :=
      List.mem_map_of_mem _ hp
    rwa [hmap] at this
  refine ⟨?_, hjoin.symm, expRun_records_length env servers _ 0⟩
  have hspec := jsonPhase_spec env servers (splitSpans openCallTag closeCallTag response).1
    (splitSpans openCallTag closeCallTag response).2 [] [] [] 0 hform hfresh
  simp only [List.nil_append] at hspec
  rw [hjoin, hmap] at hspec
  unfold processToolCalls
  rw [hcode]
  rw [List.foldl_nil]
  exact hspec

set_option maxRecDepth 100000

/-- C1 (witness): `processToolCalls_span_substitution` on a concrete
response with one succeeding span and one failing span; the surrounding
text `A`/`B`/`C` is preserved and exactly the succeeding span yields a
record. -/
theorem processToolCalls_span_substitution_witness :
    (processToolCalls envOk respC1W [srvA]).text =
      cs "A<tool_result>\"ok\"</tool_result>B<tool_error>Server 'zz' not found</tool_error>C" ∧
    (processToolCalls envOk respC1W [srvA]).calls.length = 1 := by
  have h := (processToolCalls_span_substitution envOk [srvA] respC1W (by decide)
    (FreshRun.cons _ _ _ _ _ (by decide)
      (FreshRun.cons _ _ _ _ _ (by decide)
        (FreshRun.nil _ _)))).1
  constructor
  · rw [h]
    decide
  · rw [h]
    decide
